import Mathlib

/-!
# hover-drive: the Wavefront loader `loadObj` of `src/drive.cpp`

A shallow embedding of `loadObj` (drive.cpp, lines 838-953) together with the
part of the C library's `fscanf` that the three format strings of the loader
exercise, and theorems about the mesh it returns; and of the parts of
`updateSim` and `handleMouseMotion` that keep the speed, the orientation and
the camera angles in their ranges.

Modelling conventions.

* A file is the list of its characters, a character being a byte (a `Char`
  below 256); `fopen` is a function from the path to the content, `none`
  standing for the `NULL` the C call returns.
* `fscanf` follows the description of the C standard (ISO C, 7.21.6.2): the
  directives of a format run in order, a conversion skips white space and
  takes the longest input item that is a numeral or the beginning of one, and
  the first directive that fails ends the call, what was read staying read.
* A `GLfloat`/`float` value is represented by the decimal numeral it denotes
  (sign, mantissa, power of ten); rounding to binary32 is not modelled, and
  neither are the `inf`, `nan` and hexadecimal forms that `%f` also accepts.
* `unsigned int` and `GLubyte` are naturals reduced modulo `2^32` and `2^8`;
  an `int` scanned by `%d` into an `unsigned int` is stored modulo `2^32`.
* Undefined behaviour is an outcome of its own (`Conv.undefined`,
  `Step.undefined`, `Run.undefined`), and nothing is said of what the program
  does after it: `%s` has no field width in the source, so a word of 256 bytes
  or more overruns the buffer `lineType`; and a `%d` numeral outside the range
  of `int` cannot be represented in the object it is stored in.
* Memory that the C code reads before writing it (the arrays `faceDefs` and
  `normalDefs` when the scan stops early, the alpha byte of `colour`) is a
  parameter of type `Uninit`.
* The `float` variables of the simulation and the camera, on which the code
  computes, are rationals with an explicit rounding (`FloatModel`).
-/

namespace HoverDrive

/-! ## Characters -/

/-- The C `isspace` test in the default locale: space, and `\t \n \v \f \r`. -/
def isSpace (c : Char) : Bool :=
  c.toNat == 32 || (9 ≤ c.toNat && c.toNat ≤ 13)

/-- The C `isdigit` test. -/
def isDigit (c : Char) : Bool :=
  48 ≤ c.toNat && c.toNat ≤ 57

/-- Consume leading white space, as every white-space directive and every
conversion other than `%c` does. -/
def skipWs : List Char → List Char
  | [] => []
  | c :: cs => if isSpace c then skipWs cs else c :: cs

/-- The longest prefix of non-white-space characters (the input item of `%s`)
and what follows it. -/
def scanWord : List Char → List Char × List Char
  | [] => ([], [])
  | c :: cs =>
    if isSpace c then ([], c :: cs)
    else ((scanWord cs).1.cons c, (scanWord cs).2)

/-- The longest prefix of decimal digits and what follows it. -/
def scanDigits : List Char → List Char × List Char
  | [] => ([], [])
  | c :: cs =>
    if isDigit c then ((scanDigits cs).1.cons c, (scanDigits cs).2)
    else ([], c :: cs)

/-- Value of a string of decimal digits. -/
def digitsVal (ds : List Char) : Nat :=
  ds.foldl (fun acc c => 10 * acc + (c.toNat - 48)) 0

/-- An optional sign: whether it is a minus, and the rest. -/
def scanSign : List Char → Bool × List Char
  | [] => (false, [])
  | c :: cs =>
    if c = '-' then (true, cs)
    else if c = '+' then (false, cs)
    else (false, c :: cs)

/-! ## The conversions of `fscanf` -/

/-- Outcome of one conversion specification. -/
inductive Conv (α : Type) where
  /-- the input item matched; the value and the rest of the stream -/
  | ok (v : α) (rest : List Char)
  /-- matching failure; the rest of the stream after the characters consumed -/
  | matchFail (rest : List Char)
  /-- input failure: end of file before any character of the item -/
  | inputFail
  /-- the behaviour is undefined: the item does not fit the object that the
  pointer argument points to -/
  | undefined
  deriving DecidableEq

/-- The `%s` conversion without field width into a buffer of `size` bytes:
skip white space, then read a non-empty word. The word is stored with a
terminating NUL; one of `size` characters or more overruns the buffer. -/
def convS (size : Nat) (s : List Char) : Conv (List Char) :=
  match skipWs s with
  | [] => Conv.inputFail
  | c :: cs =>
    if (scanWord (c :: cs)).1.length < size then
      Conv.ok (scanWord (c :: cs)).1 (scanWord (c :: cs)).2
    else Conv.undefined

/-- The value of a numeral is an `int`. -/
def IsInt (v : Int) : Prop := -2147483648 ≤ v ∧ v ≤ 2147483647

instance (v : Int) : Decidable (IsInt v) :=
  inferInstanceAs (Decidable (-2147483648 ≤ v ∧ v ≤ 2147483647))

/-- The `%d` conversion: skip white space, an optional sign, at least one
decimal digit. A numeral whose value is no `int` cannot be represented in the
object and leaves the behaviour undefined. -/
def convD (s : List Char) : Conv Int :=
  match skipWs s with
  | [] => Conv.inputFail
  | c :: cs =>
    let sg := scanSign (c :: cs)
    let ds := scanDigits sg.2
    if ds.1 = [] then Conv.matchFail ds.2
    else if IsInt (if sg.1 then -(digitsVal ds.1 : Int) else (digitsVal ds.1 : Int)) then
      Conv.ok (if sg.1 then -(digitsVal ds.1 : Int) else (digitsVal ds.1 : Int)) ds.2
    else Conv.undefined

/-- The fraction part of a decimal numeral: the digits after the point, if
there is a point, and the rest. -/
def scanFraction : List Char → List Char × List Char
  | [] => ([], [])
  | c :: cs => if c = '.' then scanDigits cs else ([], c :: cs)

/-- A single precision value, kept as the decimal it was written as:
`(-1)^neg * mant * 10^exp`. -/
structure GLfloat where
  neg : Bool
  mant : Nat
  exp : Int
  deriving DecidableEq

/-- The literal `0` that initialises the locals `x`, `y`, `z`. -/
def GLfloat.zero : GLfloat := ⟨false, 0, 0⟩

/-- A whole number as a `GLfloat`. -/
def GLfloat.ofNat (n : Nat) : GLfloat := ⟨false, n, 0⟩

/-- The rational number a `GLfloat` stands for. -/
def GLfloat.toRat (v : GLfloat) : ℚ :=
  (if v.neg then -1 else 1) * (v.mant : ℚ) * (10 : ℚ) ^ v.exp

/-- The exponent part of a decimal numeral after the mantissa: `none` when an
`e` is followed by no digit (the item is then not a matching sequence),
otherwise the exponent value and the rest. -/
def scanExponent : List Char → Option (Int × List Char)
  | [] => some (0, [])
  | c :: cs =>
    if c = 'e' ∨ c = 'E' then
      let sg := scanSign cs
      let ds := scanDigits sg.2
      if ds.1 = [] then none
      else some (if sg.1 then -(digitsVal ds.1 : Int) else (digitsVal ds.1 : Int), ds.2)
    else some (0, c :: cs)

/-- The rest of the stream after a malformed exponent. -/
def exponentRest (s : List Char) : List Char :=
  match s with
  | [] => []
  | _ :: cs => (scanDigits (scanSign cs).2).2

/-- The `%f` conversion on decimal numerals: skip white space, an optional
sign, digits with an optional point (at least one digit in all), an optional
exponent. An item that only begins a numeral (a sign or a point alone, an `e`
without digits) is read and the conversion fails. -/
def convF (s : List Char) : Conv GLfloat :=
  match skipWs s with
  | [] => Conv.inputFail
  | c :: cs =>
    let sg := scanSign (c :: cs)
    let ip := scanDigits sg.2
    let fp := scanFraction ip.2
    if ip.1 = [] ∧ fp.1 = [] then Conv.matchFail fp.2
    else
      match scanExponent fp.2 with
      | none => Conv.matchFail (exponentRest fp.2)
      | some (e, rest) =>
        Conv.ok ⟨sg.1, digitsVal (ip.1 ++ fp.1), e - fp.1.length⟩ rest

/-! ## `fscanf` -/

/-- The directives of a format string that occur in the loader. -/
inductive Directive where
  /-- white space in the format: consume any amount of white space -/
  | ws
  /-- an ordinary character, which must be the next character read -/
  | lit (c : Char)
  /-- the conversion `%s` into a buffer of `size` bytes -/
  | s (size : Nat)
  /-- the conversion `%d` -/
  | d
  /-- the conversion `%f` -/
  | f
  deriving DecidableEq

/-- A value stored through one of the pointer arguments. -/
inductive Arg where
  | str (v : List Char)
  | int (v : Int)
  | flt (v : GLfloat)
  deriving DecidableEq

/-- What a call of `fscanf` leaves behind: the value returned, the values
assigned (in the order of the pointer arguments), the unread stream, and
whether a conversion left the behaviour undefined (the other fields then mean
nothing). -/
structure ScanResult where
  ret : Int
  args : List Arg
  rest : List Char
  undefined : Bool
  deriving DecidableEq

/-- The constant `EOF` of `<stdio.h>`. -/
def EOF : Int := -1

/-- Return value on an input failure: `EOF` when no conversion has completed,
otherwise the number of items assigned. -/
def inputFailure (acc : List Arg) : ScanResult :=
  ⟨if acc.length = 0 then EOF else acc.length, acc, [], false⟩

/-- Run the directives of a format in order over the stream; `acc` holds the
values assigned so far. The first directive that fails ends the call. -/
def fscanfAux : List Directive → List Char → List Arg → ScanResult
  | [], inp, acc => ⟨acc.length, acc, inp, false⟩
  | Directive.ws :: ds, inp, acc => fscanfAux ds (skipWs inp) acc
  | Directive.lit c :: ds, inp, acc =>
    match inp with
    | [] => inputFailure acc
    | c1 :: cs => if c1 = c then fscanfAux ds cs acc else ⟨acc.length, acc, c1 :: cs, false⟩
  | Directive.s size :: ds, inp, acc =>
    match convS size inp with
    | Conv.ok v rest => fscanfAux ds rest (acc ++ [Arg.str v])
    | Conv.matchFail rest => ⟨acc.length, acc, rest, false⟩
    | Conv.inputFail => inputFailure acc
    | Conv.undefined => ⟨acc.length, acc, [], true⟩
  | Directive.d :: ds, inp, acc =>
    match convD inp with
    | Conv.ok v rest => fscanfAux ds rest (acc ++ [Arg.int v])
    | Conv.matchFail rest => ⟨acc.length, acc, rest, false⟩
    | Conv.inputFail => inputFailure acc
    | Conv.undefined => ⟨acc.length, acc, [], true⟩
  | Directive.f :: ds, inp, acc =>
    match convF inp with
    | Conv.ok v rest => fscanfAux ds rest (acc ++ [Arg.flt v])
    | Conv.matchFail rest => ⟨acc.length, acc, rest, false⟩
    | Conv.inputFail => inputFailure acc
    | Conv.undefined => ⟨acc.length, acc, [], true⟩

/-- The call `fscanf(file, format, ...)`. -/
def fscanf (format : List Directive) (inp : List Char) : ScanResult :=
  fscanfAux format inp []

/-- The format `"%s "` of line 875, its argument the buffer
`char lineType[256]` of line 871. -/
def fmtTag : List Directive := [Directive.s 256, Directive.ws]

/-- The format `"%f %f %f\n"` of line 890. -/
def fmtVertex : List Directive :=
  [Directive.f, Directive.ws, Directive.f, Directive.ws, Directive.f, Directive.ws]

/-- The format `"%d//%d %d//%d %d//%d\n"` of line 906. -/
def fmtFace : List Directive :=
  [Directive.d, Directive.lit '/', Directive.lit '/', Directive.d, Directive.ws,
   Directive.d, Directive.lit '/', Directive.lit '/', Directive.d, Directive.ws,
   Directive.d, Directive.lit '/', Directive.lit '/', Directive.d, Directive.ws]

/-- The string stored through the `i`-th pointer argument, empty if the call
did not get that far. -/
def argStr (args : List Arg) (i : Nat) : List Char :=
  match args.get? i with
  | some (Arg.str v) => v
  | _ => []

/-- The float behind the `i`-th pointer argument after the call: the value
assigned, or the value `old` the variable had before. -/
def argFlt (args : List Arg) (i : Nat) (old : GLfloat) : GLfloat :=
  match args.get? i with
  | some (Arg.flt v) => v
  | _ => old

/-- The `unsigned int` behind the `i`-th pointer argument after the call: the
`int` assigned, reinterpreted modulo `2^32`, or the value `old` that the
memory held before. -/
def argUInt (args : List Arg) (i : Nat) (old : Nat) : Nat :=
  match args.get? i with
  | some (Arg.int v) => (v % 4294967296).toNat
  | _ => old

/-- The C string held by a character buffer: the characters before the first
NUL, which is all that `strcmp` looks at. -/
def cstr : List Char → List Char
  | [] => []
  | c :: cs => if c.toNat = 0 then [] else c :: cstr cs

/-- The cast `(GLubyte)(v - 1)` of an `unsigned int`. -/
def indexByte (v : Nat) : Nat := ((v + 4294967295) % 4294967296) % 256

/-- The cast `(GLubyte)v` of an `unsigned int`. -/
def normalByte (v : Nat) : Nat := v % 256

/-! ## The data model -/

/-- The colour structure of SDL: four 8-bit channels. -/
structure SDL_Colour where
  r : Nat
  g : Nat
  b : Nat
  a : Nat
  deriving DecidableEq

/-- The structure `GameObject` of lines 82-98. -/
structure GameObject where
  name : String
  x : GLfloat
  y : GLfloat
  rz : GLfloat
  colour : SDL_Colour
  vertexList : List GLfloat
  faceList : List Nat
  normalList : List Nat
  deriving DecidableEq

/-- Contents of the memory that `loadObj` reads without having written it. -/
structure Uninit where
  colourA : Nat
  faceDefs0 : Nat
  faceDefs1 : Nat
  faceDefs2 : Nat
  normalDefs0 : Nat
  normalDefs1 : Nat
  normalDefs2 : Nat
  deriving DecidableEq

/-- The lines that `loadObj` prints. -/
inductive Msg where
  /-- line 865 -/
  | attempting (fileName : String)
  /-- line 936 -/
  | parserIsBad
  /-- line 937: `pcount` and the three entries of `faceDefs` -/
  | faceDefs (pcount : Int) (f0 f1 f2 : Nat)
  /-- line 949 -/
  | couldntOpen (fileName : String)
  deriving DecidableEq

/-! ## `loadObj` -/

/-- The variables of `loadObj` that the scan loop reads and writes. -/
structure Scan where
  newObject : GameObject
  x : GLfloat
  y : GLfloat
  z : GLfloat
  currentFile : List Char
  out : List Msg
  deriving DecidableEq

/-- How an iteration of `while(1)` ends. -/
inductive Step where
  /-- the end of the body was reached: iterate again -/
  | next (st : Scan)
  /-- a `break` was executed -/
  | stop (st : Scan)
  /-- a call of `fscanf` left the behaviour undefined -/
  | undefined
  deriving DecidableEq

/-- How a run of the loop, or of `loadObj`, ends. -/
inductive Run (α : Type) where
  /-- the code returns, with this result -/
  | returns (a : α)
  /-- the behaviour of the code is undefined -/
  | undefined
  /-- the iterations allowed were used up before a `break` -/
  | outOfFuel
  deriving DecidableEq

/-- Apply a function to the result of a run that returns. -/
def Run.map {α β : Type} (f : α → β) : Run α → Run β
  | Run.returns a => Run.returns (f a)
  | Run.undefined => Run.undefined
  | Run.outOfFuel => Run.outOfFuel

/-- Append the three entries of `faceDefs` and `normalDefs` in reverse order
(lines 914-921 and, identically, 928-934). -/
def pushFace (o : GameObject) (f0 f1 f2 n0 n1 n2 : Nat) : GameObject :=
  { o with
    faceList := o.faceList ++ [indexByte f2, indexByte f1, indexByte f0]
    normalList := o.normalList ++ [normalByte n2, normalByte n1, normalByte n0] }

/-- One iteration of the loop of lines 868-941. -/
def loopBody (u : Uninit) (st : Scan) : Step :=
  let result := fscanf fmtTag st.currentFile
  if result.undefined then Step.undefined
  else if result.ret = EOF then Step.stop { st with currentFile := result.rest }
  else
    let lineType := cstr (argStr result.args 0)
    if lineType = ['v'] then
      let r := fscanf fmtVertex result.rest
      let x := argFlt r.args 0 st.x
      let y := argFlt r.args 1 st.y
      let z := argFlt r.args 2 st.z
      if r.undefined then Step.undefined
      else
        Step.next { st with
          newObject := { st.newObject with vertexList := st.newObject.vertexList ++ [x, y, z] }
          x := x, y := y, z := z, currentFile := r.rest }
    else if lineType = ['f'] then
      let r := fscanf fmtFace result.rest
      let f0 := argUInt r.args 0 u.faceDefs0
      let n0 := argUInt r.args 1 u.normalDefs0
      let f1 := argUInt r.args 2 u.faceDefs1
      let n1 := argUInt r.args 3 u.normalDefs1
      let f2 := argUInt r.args 4 u.faceDefs2
      let n2 := argUInt r.args 5 u.normalDefs2
      if r.undefined then Step.undefined
      else if r.ret = 6 then
        Step.next { st with
          newObject := pushFace st.newObject f0 f1 f2 n0 n1 n2, currentFile := r.rest }
      else
        Step.stop { st with
          newObject := pushFace st.newObject f0 f1 f2 n0 n1 n2, currentFile := r.rest
          out := st.out ++ [Msg.parserIsBad, Msg.faceDefs r.ret f0 f1 f2] }
    else Step.next { st with currentFile := result.rest }

/-- The loop `while(1)` run for at most `fuel` iterations. -/
def scanLoop (u : Uninit) : Nat → Scan → Run Scan
  | 0, _ => Run.outOfFuel
  | fuel + 1, st =>
    match loopBody u st with
    | Step.stop st1 => Run.returns st1
    | Step.next st1 => scanLoop u fuel st1
    | Step.undefined => Run.undefined

/-- The object of lines 841-851, before the file is read. -/
def initObject (u : Uninit) (objFile : String) (foo : SDL_Colour) (posX posY rotZ : GLfloat) :
    GameObject :=
  { name := objFile, x := posX, y := posY, rz := rotZ
    colour := { r := foo.r, g := foo.g, b := foo.b, a := u.colourA }
    vertexList := [], faceList := [], normalList := [] }

/-- The path of line 859. -/
def fileName (pathSeparator objFile : String) : String :=
  "resources" ++ pathSeparator ++ "models" ++ pathSeparator ++ objFile

/-- The variables on entry to the loop, the file just opened (lines 854-865). -/
def initScan (newObject : GameObject) (fileName : String) (content : List Char) : Scan :=
  { newObject := newObject, x := GLfloat.zero, y := GLfloat.zero, z := GLfloat.zero
    currentFile := content, out := [Msg.attempting fileName] }

/-- The function `loadObj` of lines 838-953. `pathSeparator` is the constant of
line 33, `fopen` gives the content of the file at a path (`none` for `NULL`),
`u` the content of uninitialised memory. The result of a run that returns is
the object returned and the lines printed; every iteration that does not
`break` consumes input, so the length of the file plus one bounds the number
of iterations. -/
def loadObj (pathSeparator : String) (fopen : String → Option (List Char)) (u : Uninit)
    (objFile : String) (foo : SDL_Colour) (posX posY rotZ : GLfloat) :
    Run (GameObject × List Msg) :=
  let newObject := initObject u objFile foo posX posY rotZ
  match fopen (fileName pathSeparator objFile) with
  | some content =>
    (scanLoop u (content.length + 1)
      (initScan newObject (fileName pathSeparator objFile) content)).map
      (fun st => (st.newObject, st.out))
  | none => Run.returns (newObject, [Msg.couldntOpen (fileName pathSeparator objFile)])

/-- The unread stream after a conversion is no longer than `n`. -/
def Conv.RestLe {α : Type} (r : Conv α) (n : Nat) : Prop :=
  match r with
  | Conv.ok _ rest => rest.length ≤ n
  | Conv.matchFail rest => rest.length ≤ n
  | Conv.inputFail => True
  | Conv.undefined => True

/-! ## Well-formed files

A well-formed file is a sequence of lines in the layout of the format
description, fields separated by one space: `v` records, `f` records, and
lines of other content (`vn`, `vt`, `usemtl`, comments, blank lines) none of
whose words is the tag `v` or `f`. Its words are shorter than the 256 bytes of
the buffer they are read into, and its integers are `int` values. -/

/-- The optional sign of a numeral. -/
inductive Sign where
  | none
  | plus
  | minus
  deriving DecidableEq

/-- The characters of a sign. -/
def Sign.text : Sign → List Char
  | Sign.none => []
  | Sign.plus => ['+']
  | Sign.minus => ['-']

/-- Whether the sign is a minus. -/
def Sign.isMinus : Sign → Bool
  | Sign.minus => true
  | _ => false

/-- A string of decimal digits. -/
def AllDigits (ds : List Char) : Prop := ∀ c ∈ ds, isDigit c = true

instance (ds : List Char) : Decidable (AllDigits ds) :=
  inferInstanceAs (Decidable (∀ c ∈ ds, isDigit c = true))

/-- An integer numeral: optional sign and digits. -/
structure IntNumeral where
  sign : Sign
  digits : List Char
  deriving DecidableEq

/-- The characters of an integer numeral. -/
def IntNumeral.text (n : IntNumeral) : List Char := n.sign.text ++ n.digits

/-- The integer an integer numeral denotes. -/
def IntNumeral.value (n : IntNumeral) : Int :=
  if n.sign.isMinus then -(digitsVal n.digits : Int) else (digitsVal n.digits : Int)

/-- An integer numeral has at least one digit and only digits, and its value
is an `int`. -/
def IntNumeral.WF (n : IntNumeral) : Prop :=
  n.digits ≠ [] ∧ AllDigits n.digits ∧ IsInt n.value

instance (n : IntNumeral) : Decidable n.WF :=
  inferInstanceAs (Decidable (n.digits ≠ [] ∧ AllDigits n.digits ∧ IsInt n.value))

/-- A decimal floating point numeral: sign, integer digits, optional point
with fraction digits, optional exponent (`e` or `E`, sign, digits). -/
structure FloatNumeral where
  sign : Sign
  intDigits : List Char
  fraction : Option (List Char)
  exponent : Option (Bool × Sign × List Char)
  deriving DecidableEq

/-- The fraction digits of a numeral (none when there is no point). -/
def FloatNumeral.fracDigits (n : FloatNumeral) : List Char := n.fraction.getD []

/-- The characters of the exponent part. -/
def FloatNumeral.expText : Option (Bool × Sign × List Char) → List Char
  | Option.none => []
  | some (upper, sg, ds) => (if upper then 'E' else 'e') :: (sg.text ++ ds)

/-- The characters of the fraction part. -/
def FloatNumeral.fracText : Option (List Char) → List Char
  | Option.none => []
  | some ds => '.' :: ds

/-- The characters of a floating point numeral. -/
def FloatNumeral.text (n : FloatNumeral) : List Char :=
  n.sign.text ++ (n.intDigits ++ (FloatNumeral.fracText n.fraction ++
    FloatNumeral.expText n.exponent))

/-- The value written after `e`. -/
def FloatNumeral.expValue : Option (Bool × Sign × List Char) → Int
  | Option.none => 0
  | some (_, sg, ds) => if sg.isMinus then -(digitsVal ds : Int) else (digitsVal ds : Int)

/-- The value a floating point numeral denotes. -/
def FloatNumeral.value (n : FloatNumeral) : GLfloat :=
  ⟨n.sign.isMinus, digitsVal (n.intDigits ++ n.fracDigits),
    FloatNumeral.expValue n.exponent - n.fracDigits.length⟩

/-- A floating point numeral has only digits where digits stand, at least one
digit in the mantissa, and at least one digit in the exponent if it has one. -/
def FloatNumeral.WF (n : FloatNumeral) : Prop :=
  AllDigits n.intDigits ∧ AllDigits n.fracDigits ∧
  (n.intDigits ≠ [] ∨ n.fracDigits ≠ []) ∧
  (∀ e ∈ n.exponent, e.2.2 ≠ [] ∧ AllDigits e.2.2)

instance (n : FloatNumeral) : Decidable n.WF :=
  inferInstanceAs (Decidable (AllDigits n.intDigits ∧ AllDigits n.fracDigits ∧
    (n.intDigits ≠ [] ∨ n.fracDigits ≠ []) ∧
    (∀ e ∈ n.exponent, e.2.2 ≠ [] ∧ AllDigits e.2.2)))

/-- A word that is no tag: not empty, of bytes that are no white space,
shorter than the 256 bytes of the buffer `lineType`, and not equal to `v` or
`f` as a C string (up to its first NUL, which is how `strcmp` compares it). -/
def IsJunkWord (w : List Char) : Prop :=
  w ≠ [] ∧ (∀ c ∈ w, isSpace c = false ∧ c.toNat < 256) ∧ w.length < 256 ∧
    cstr w ≠ ['v'] ∧ cstr w ≠ ['f']

instance (w : List Char) : Decidable (IsJunkWord w) :=
  inferInstanceAs (Decidable (w ≠ [] ∧ (∀ c ∈ w, isSpace c = false ∧ c.toNat < 256) ∧
    w.length < 256 ∧ cstr w ≠ ['v'] ∧ cstr w ≠ ['f']))

/-- A line of the given words, separated by single spaces and ended by a
newline, put in front of `rest`. -/
def junkLine : List (List Char) → List Char → List Char
  | [], rest => '\n' :: rest
  | [w], rest => w ++ '\n' :: rest
  | w :: w2 :: ws, rest => w ++ ' ' :: junkLine (w2 :: ws) rest

/-- A record of the file format. -/
inductive Record where
  /-- the line `v x y z` -/
  | v (x y z : FloatNumeral)
  /-- the line `f a//na b//nb c//nc` -/
  | f (a na b nb c nc : IntNumeral)
  /-- a line of words that are no tag, such as `vn 0 0 1` or an empty line -/
  | other (ws : List (List Char))
  deriving DecidableEq

/-- All numerals of a record are well formed. -/
def Record.WF : Record → Prop
  | Record.v x y z => x.WF ∧ y.WF ∧ z.WF
  | Record.f a na b nb c nc => a.WF ∧ na.WF ∧ b.WF ∧ nb.WF ∧ c.WF ∧ nc.WF
  | Record.other ws => ∀ w ∈ ws, IsJunkWord w

instance (r : Record) : Decidable r.WF :=
  match r with
  | Record.v x y z => inferInstanceAs (Decidable (x.WF ∧ y.WF ∧ z.WF))
  | Record.f a na b nb c nc =>
    inferInstanceAs (Decidable (a.WF ∧ na.WF ∧ b.WF ∧ nb.WF ∧ c.WF ∧ nc.WF))
  | Record.other ws => inferInstanceAs (Decidable (∀ w ∈ ws, IsJunkWord w))

/-- The line of a record, newline included, put in front of `rest`. -/
def Record.render (r : Record) (rest : List Char) : List Char :=
  match r with
  | Record.v x y z =>
    'v' :: ' ' :: (x.text ++ ' ' :: (y.text ++ ' ' :: (z.text ++ '\n' :: rest)))
  | Record.f a na b nb c nc =>
    'f' :: ' ' :: (a.text ++ '/' :: '/' :: (na.text ++ ' ' :: (b.text ++ '/' :: '/' ::
      (nb.text ++ ' ' :: (c.text ++ '/' :: '/' :: (nc.text ++ '\n' :: rest))))))
  | Record.other ws => junkLine ws rest

/-- The number of iterations of the scan loop that a record takes: one for a
`v` or `f` record, one per word for another line. -/
def Record.steps : Record → Nat
  | Record.other ws => ws.length
  | _ => 1

/-- The iterations that a sequence of records takes. -/
def stepsOf : List Record → Nat
  | [] => 0
  | r :: rs => r.steps + stepsOf rs

/-- The lines of the given records put in front of `rest`. -/
def renderOnto : List Record → List Char → List Char
  | [], rest => rest
  | r :: rs, rest => r.render (renderOnto rs rest)

/-- The content of the file made of the given records. -/
def renderFile (rs : List Record) : List Char := renderOnto rs []

/-- The values a `v` record contributes to `vertexList`. -/
def Record.vertexData : Record → List GLfloat
  | Record.v x y z => [x.value, y.value, z.value]
  | _ => []

/-- The bytes a face record contributes to `faceList`: the three vertex
indices less one, modulo 256, last corner first. -/
def Record.faceData : Record → List Nat
  | Record.f a _ b _ c _ =>
    [((c.value - 1) % 256).toNat, ((b.value - 1) % 256).toNat, ((a.value - 1) % 256).toNat]
  | _ => []

/-- The bytes a face record contributes to `normalList`: the three normal
indices modulo 256, last corner first. -/
def Record.normalData : Record → List Nat
  | Record.f _ na _ nb _ nc =>
    [(nc.value % 256).toNat, (nb.value % 256).toNat, (na.value % 256).toNat]
  | _ => []

/-- The state of the scan after a well-formed record, in the words of the
format description: a `v` record appends its three components (and leaves them
in `x`, `y`, `z`), an `f` record appends its corners to both index lists, any
other line changes nothing. -/
def Record.apply (st : Scan) (r : Record) : Scan :=
  match r with
  | Record.v x y z =>
    { st with
      newObject := { st.newObject with
        vertexList := st.newObject.vertexList ++ [x.value, y.value, z.value] }
      x := x.value, y := y.value, z := z.value }
  | Record.f _ _ _ _ _ _ =>
    { st with
      newObject := { st.newObject with
        faceList := st.newObject.faceList ++ r.faceData
        normalList := st.newObject.normalList ++ r.normalData } }
  | Record.other _ => st

/-- The state of the scan after a sequence of well-formed records. -/
def applyRecords (st : Scan) (rs : List Record) : Scan := rs.foldl Record.apply st

/-- The vertex indices of a face record are in `1..256` and its normal indices
in `0..255` (a `v` record has none). -/
def Record.InRange : Record → Prop
  | Record.v _ _ _ => True
  | Record.other _ => True
  | Record.f a na b nb c nc =>
    (1 ≤ a.value ∧ a.value ≤ 256) ∧ (1 ≤ b.value ∧ b.value ≤ 256) ∧
    (1 ≤ c.value ∧ c.value ≤ 256) ∧ (0 ≤ na.value ∧ na.value ≤ 255) ∧
    (0 ≤ nb.value ∧ nb.value ≤ 255) ∧ (0 ≤ nc.value ∧ nc.value ≤ 255)

instance (r : Record) : Decidable r.InRange :=
  match r with
  | Record.v _ _ _ => inferInstanceAs (Decidable True)
  | Record.other _ => inferInstanceAs (Decidable True)
  | Record.f a na b nb c nc =>
    inferInstanceAs (Decidable ((1 ≤ a.value ∧ a.value ≤ 256) ∧ (1 ≤ b.value ∧ b.value ≤ 256) ∧
      (1 ≤ c.value ∧ c.value ≤ 256) ∧ (0 ≤ na.value ∧ na.value ≤ 255) ∧
      (0 ≤ nb.value ∧ nb.value ≤ 255) ∧ (0 ≤ nc.value ∧ nc.value ≤ 255)))

/-- The corners of a face record as the format description words them: the
0-based vertex indices `c-1, b-1, a-1`. -/
def Record.faceTriple : Record → List Nat
  | Record.f a _ b _ c _ => [(c.value - 1).toNat, (b.value - 1).toNat, (a.value - 1).toNat]
  | _ => []

/-- The normal indices of a face record, last corner first: `nc, nb, na`. -/
def Record.normalTriple : Record → List Nat
  | Record.f _ na _ nb _ nc => [nc.value.toNat, nb.value.toNat, na.value.toNat]
  | _ => []

/-- The vertex indices of a face record lie in `1..n`. -/
def Record.RefersTo (n : Nat) : Record → Prop
  | Record.v _ _ _ => True
  | Record.other _ => True
  | Record.f a _ b _ c _ =>
    ∀ i ∈ [a, b, c], 1 ≤ i.value ∧ i.value ≤ n

instance (n : Nat) (r : Record) : Decidable (r.RefersTo n) :=
  match r with
  | Record.v _ _ _ => inferInstanceAs (Decidable True)
  | Record.other _ => inferInstanceAs (Decidable True)
  | Record.f a _ b _ c _ =>
    inferInstanceAs (Decidable (∀ i ∈ [a, b, c], 1 ≤ i.value ∧ i.value ≤ n))

/-- The state in which the loop stops at a face record whose scan `r` did not
assign all six values (lines 926-938). -/
def badFaceStop (u : Uninit) (st : Scan) (r : ScanResult) : Scan :=
  { st with
    newObject := pushFace st.newObject (argUInt r.args 0 u.faceDefs0)
      (argUInt r.args 2 u.faceDefs1) (argUInt r.args 4 u.faceDefs2)
      (argUInt r.args 1 u.normalDefs0) (argUInt r.args 3 u.normalDefs1)
      (argUInt r.args 5 u.normalDefs2)
    currentFile := r.rest
    out := st.out ++ [Msg.parserIsBad, Msg.faceDefs r.ret (argUInt r.args 0 u.faceDefs0)
      (argUInt r.args 2 u.faceDefs1) (argUInt r.args 4 u.faceDefs2)] }

/-- The component triples of the `v` records of a file, in file order. -/
def vertexRecords : List Record → List (GLfloat × GLfloat × GLfloat)
  | [] => []
  | Record.v x y z :: rs => (x.value, y.value, z.value) :: vertexRecords rs
  | Record.f _ _ _ _ _ _ :: rs => vertexRecords rs
  | Record.other _ :: rs => vertexRecords rs

/-- A record is a `v` record. -/
def Record.isVertex : Record → Bool
  | Record.v _ _ _ => true
  | _ => false

/-- The fields of an object that the caller of `loadObj` supplies agree. -/
def GameObject.SameFrame (a b : GameObject) : Prop :=
  a.name = b.name ∧ a.x = b.x ∧ a.y = b.y ∧ a.rz = b.rz ∧ a.colour = b.colour

/-- The variables at the end of an iteration whose behaviour is defined,
whether it ended in a `break` or not. -/
def Step.scan : Step → Option Scan
  | Step.next st => some st
  | Step.stop st => some st
  | Step.undefined => none

/-- The numeral of a single digit. -/
def FloatNumeral.digit (c : Char) : FloatNumeral := ⟨Sign.none, [c], Option.none, Option.none⟩

/-- The index numeral of a single digit. -/
def IntNumeral.digit (c : Char) : IntNumeral := ⟨Sign.none, [c]⟩

/-- The records of the triangle of the round-trip property: three vertices
and the face `f 1//1 2//2 3//3`. -/
def triangle : List Record :=
  [Record.v (FloatNumeral.digit '0') (FloatNumeral.digit '0') (FloatNumeral.digit '0'),
   Record.v (FloatNumeral.digit '1') (FloatNumeral.digit '0') (FloatNumeral.digit '0'),
   Record.v (FloatNumeral.digit '0') (FloatNumeral.digit '1') (FloatNumeral.digit '0'),
   Record.f (IntNumeral.digit '1') (IntNumeral.digit '1') (IntNumeral.digit '2')
     (IntNumeral.digit '2') (IntNumeral.digit '3') (IntNumeral.digit '3')]

/-- One vertex and a face that names three: the records of the file
`v 0 0 0`, `f 1//1 2//2 3//3`. -/
def danglingFace : List Record :=
  [Record.v (FloatNumeral.digit '0') (FloatNumeral.digit '0') (FloatNumeral.digit '0'),
   Record.f (IntNumeral.digit '1') (IntNumeral.digit '1') (IntNumeral.digit '2')
     (IntNumeral.digit '2') (IntNumeral.digit '3') (IntNumeral.digit '3')]

/-- A face whose indices leave the range of a byte (vertex indices 0, 257,
1000 with the normal indices 300, minus one, 70000), a vertex, and a face of
the usual kind `f 1//1 2//2 3//3`. -/
def wrappingFaces : List Record :=
  [Record.f ⟨Sign.none, ['0']⟩ ⟨Sign.none, ['3', '0', '0']⟩ ⟨Sign.none, ['2', '5', '7']⟩
     ⟨Sign.minus, ['1']⟩ ⟨Sign.none, ['1', '0', '0', '0']⟩
     ⟨Sign.none, ['7', '0', '0', '0', '0']⟩,
   Record.v (FloatNumeral.digit '1') (FloatNumeral.digit '2') (FloatNumeral.digit '3'),
   Record.f (IntNumeral.digit '1') (IntNumeral.digit '1') (IntNumeral.digit '2')
     (IntNumeral.digit '2') (IntNumeral.digit '3') (IntNumeral.digit '3')]

/-- The word of a string. -/
def word (s : String) : List Char := s.toList

/-- The triangle as a modelling program writes it: a comment, an object name,
the vertices, a normal, a smoothing flag and the face. -/
def exportedTriangle : List Record :=
  [Record.other [word "#", word "triangle"], Record.other [word "o", word "Tri"]] ++
  triangle.take 3 ++
  [Record.other [word "vn", word "0", word "0", word "1"], Record.other [],
   Record.other [word "s", word "off"]] ++ triangle.drop 3

/-- A file system with one file, whatever the path asked for. -/
def oneFile (content : String) : String → Option (List Char) := fun _ => some content.toList

/-- A file system without files. -/
def noFile : String → Option (List Char) := fun _ => Option.none

/-- Some content of uninitialised memory. -/
def someUninit : Uninit := ⟨255, 7, 8, 9, 10, 11, 12⟩

/-- Some other content of uninitialised memory. -/
def otherUninit : Uninit := ⟨0, 100, 200, 300, 400, 500, 600⟩

/-- The grey of `loadAssets` (line 964). -/
def grey : SDL_Colour := ⟨128, 128, 128, 0⟩


/-- The lengths of the three lists fit triangles: `vertexList` and `faceList`
hold a multiple of three entries and `normalList` is as long as `faceList`. -/
def GameObject.LengthsOk (o : GameObject) : Prop :=
  o.vertexList.length % 3 = 0 ∧ o.faceList.length % 3 = 0 ∧
    o.faceList.length = o.normalList.length

/-- The `unsigned int` in an entry of `faceDefs` or `normalDefs` after a scan
that assigned the integers `vs`, in the order of the pointer arguments, `i`
being the position of the entry among them: the `i`-th integer if the scan
got that far, otherwise what the memory held before. -/
def faceSlot (vs : List Int) (i : Nat) (old : Nat) : Nat :=
  match vs.get? i with
  | some v => (v % 4294967296).toNat
  | none => old

/-- A record that starts with a tag: a `v` or an `f` record. -/
def Record.isTagged : Record → Bool
  | Record.other _ => false
  | _ => true

/-- The components of the last `v` record of a sequence, `init` if it has
none. -/
def lastVertexFrom (init : GLfloat × GLfloat × GLfloat) :
    List Record → GLfloat × GLfloat × GLfloat
  | [] => init
  | Record.v x y z :: rs => lastVertexFrom (x.value, y.value, z.value) rs
  | Record.f _ _ _ _ _ _ :: rs => lastVertexFrom init rs
  | Record.other _ :: rs => lastVertexFrom init rs

/-- The components of the most recent `v` record, zeros if there was none:
what the locals `x`, `y`, `z` hold after the records. -/
def lastVertex (rs : List Record) : GLfloat × GLfloat × GLfloat :=
  lastVertexFrom (GLfloat.zero, GLfloat.zero, GLfloat.zero) rs

/-- The fields of a line, each after one space, put in front of `rest`. -/
def partialFields : List FloatNumeral → List Char → List Char
  | [], rest => rest
  | n :: ns, rest => ' ' :: (n.text ++ partialFields ns rest)

/-- The line of a `v` record with the given numerals only (fewer than three
for a record cut short), newline included, put in front of `rest`. -/
def partialVertex (nums : List FloatNumeral) (rest : List Char) : List Char :=
  'v' :: partialFields nums ('\n' :: rest)

/-- The three values appended for a `v` record of which only the components
`vals` were parsed: those first, and for each missing component the value it
had before. -/
def fillVertex (vals : List GLfloat) (old : GLfloat × GLfloat × GLfloat) : List GLfloat :=
  [(vals.get? 0).getD old.1, (vals.get? 1).getD old.2.1, (vals.get? 2).getD old.2.2]

/-- The variables after an iteration that read a `v` tag and parsed the
components `vals` (lines 890-893), `rest` being the unread stream. -/
def Scan.afterVertex (st : Scan) (vals : List GLfloat) (rest : List Char) : Scan :=
  { st with
    newObject := { st.newObject with
      vertexList := st.newObject.vertexList ++ fillVertex vals (st.x, st.y, st.z) }
    x := (vals.get? 0).getD st.x
    y := (vals.get? 1).getD st.y
    z := (vals.get? 2).getD st.z
    currentFile := rest }

/-- The record `v 1 2 3`. -/
def oneTwoThree : Record :=
  Record.v (FloatNumeral.digit '1') (FloatNumeral.digit '2') (FloatNumeral.digit '3')

/-! ## The simulation and the camera (lines 57-70, 289-335, 489-532, 626)

The `float` variables of the simulation and of the camera are rationals, and
every operation and conversion on them rounds its exact result by the `rnd`
of a `FloatModel`. -/

/-- Binary32 arithmetic as far as the simulation and the camera need it: the
result of an operation or conversion is the exact result rounded by `rnd`.
Rounding is monotone, and a number `m / 2^e` with a mantissa of at most 24
bits and an exponent in range is its own rounding. Overflow, infinities and
NaN do not occur at the magnitudes involved and are not modelled. -/
structure FloatModel where
  rnd : ℚ → ℚ
  mono : ∀ a b : ℚ, a ≤ b → rnd a ≤ rnd b
  exact : ∀ (m : ℤ) (e : ℕ), -16777216 ≤ m → m ≤ 16777216 → e ≤ 100 →
    rnd ((m : ℚ) / 2 ^ e) = (m : ℚ) / 2 ^ e

/-- Arithmetic without rounding. -/
def exactArith : FloatModel := ⟨id, fun _ _ h => h, fun _ _ _ _ _ => rfl⟩

/-- Conversion of a `float` to `int`, and the quotient that `fmod` takes:
the integer part, rounded towards zero. -/
def truncQ (q : ℚ) : ℤ := if 0 ≤ q then ⌊q⌋ else ⌈q⌉

/-- The C function `fmod`: `x` less the multiple of `y` by the truncated
quotient. The result is a `float` when `x` and `y` are and is not rounded. -/
def fmodf (x y : ℚ) : ℚ := x - y * truncQ (x / y)

/-- The vehicle variables of lines 65-70 that `updateSim` reads and writes,
`carX` and `carY` apart. -/
structure Sim where
  carSteer : Int
  carAccel : Bool
  carBrake : Bool
  carSpeed : ℚ
  carDirection : ℚ

/-- The initial values of lines 66-70. -/
def initSim : Sim :=
  { carSteer := 0, carAccel := false, carBrake := false, carSpeed := 0, carDirection := 180 }

/-- The orientation after lines 492-502 of `updateSim`. -/
def updateDirection (F : FloatModel) (s : Sim) : ℚ :=
  let carDirection := F.rnd (s.carDirection + F.rnd (F.rnd 5 * F.rnd s.carSteer))
  if carDirection > F.rnd 360 then fmodf carDirection (F.rnd 360)
  else if carDirection < F.rnd 0 then F.rnd (F.rnd 360 - carDirection)
  else carDirection

/-- The speed after lines 504-532 of `updateSim`. -/
def updateSpeed (F : FloatModel) (s : Sim) : ℚ :=
  if s.carBrake then
    let carSpeed := F.rnd (s.carSpeed - F.rnd (1 / 100))
    if carSpeed < F.rnd 0 then F.rnd 0 else carSpeed
  else if s.carAccel then
    let carSpeed := F.rnd (s.carSpeed + F.rnd (1 / 100))
    if carSpeed > F.rnd (1 / 4) then F.rnd (1 / 4) else carSpeed
  else if s.carSpeed > F.rnd (2 / 100) then
    let carSpeed := F.rnd (s.carSpeed - F.rnd (25 / 10000))
    if carSpeed < F.rnd 0 then F.rnd 0 else carSpeed
  else s.carSpeed

/-- The function `updateSim` of lines 489-546, as far as orientation and speed
go. The lines 534-545 after them read both and write only the position
`carX`, `carY`, which nothing here depends on. -/
def updateSim (F : FloatModel) (s : Sim) : Sim :=
  { s with carDirection := updateDirection F s, carSpeed := updateSpeed F s }

/-- One turn of the main loop (lines 1139-1160) as the vehicle sees it:
`updateSim`, then the key events of the turn, which leave `carSteer`,
`carAccel` and `carBrake` at the values `keys`. -/
def frame (F : FloatModel) (s : Sim) (keys : Int × Bool × Bool) : Sim :=
  { updateSim F s with carSteer := keys.1, carAccel := keys.2.1, carBrake := keys.2.2 }

/-- The vehicle after a sequence of turns of the main loop. -/
def runSim (F : FloatModel) (s : Sim) (turns : List (Int × Bool × Bool)) : Sim :=
  turns.foldl (frame F) s

/-- The volume that `updateSound` passes to `Mix_VolumeChunk` (line 626):
`MIX_MAX_VOLUME * carSpeed`, converted to `int`. The constant comes from the
mixer library and is a parameter. -/
def fanVolume (F : FloatModel) (mixMaxVolume : Nat) (carSpeed : ℚ) : ℤ :=
  truncQ (F.rnd (F.rnd mixMaxVolume * carSpeed))

/-- The mouse look variables of lines 57-63. -/
structure Camera where
  limitY : Int
  invertY : Bool
  mouseSensX : ℚ
  mouseSensY : ℚ
  rotY : ℚ
  rotX : ℚ

/-- The initial values of lines 58-63. -/
def initCamera (F : FloatModel) : Camera :=
  { limitY := 60, invertY := false, mouseSensX := F.rnd (1 / 10), mouseSensY := F.rnd (1 / 10)
    rotY := 0, rotX := 0 }

/-- The horizontal angle after lines 292-307 of `handleMouseMotion`. -/
def turnX (F : FloatModel) (c : Camera) (xrel : Int) : ℚ :=
  if xrel ≠ 0 then
    let rotX := F.rnd (c.rotX + F.rnd (F.rnd xrel * c.mouseSensX))
    if rotX > F.rnd 360 then F.rnd (rotX - F.rnd 360)
    else if rotX < F.rnd 0 then F.rnd (rotX + F.rnd 360)
    else rotX
  else c.rotX

/-- The value `tempY` of lines 319 and 328: the vertical angle that the
movement asks for. -/
def targetY (F : FloatModel) (c : Camera) (yrel : Int) : ℚ :=
  if c.invertY then F.rnd (c.rotY - F.rnd (F.rnd yrel * c.mouseSensY))
  else F.rnd (c.rotY + F.rnd (F.rnd yrel * c.mouseSensY))

/-- The vertical angle after lines 309-335 of `handleMouseMotion`. -/
def turnY (F : FloatModel) (c : Camera) (yrel : Int) : ℚ :=
  if yrel ≠ 0 then
    if targetY F c yrel > F.rnd (-c.limitY : ℤ) ∧ targetY F c yrel < F.rnd c.limitY then
      targetY F c yrel
    else c.rotY
  else c.rotY

/-- The function `handleMouseMotion` of lines 289-337. -/
def handleMouseMotion (F : FloatModel) (c : Camera) (xrel yrel : Int) : Camera :=
  { c with rotX := turnX F c xrel, rotY := turnY F c yrel }

/-- A file system with one file of the given characters, whatever the path
asked for. -/
def fileOf (content : List Char) : String → Option (List Char) := fun _ => some content

/-- The record `v 1 2 3` and a comment line that is a rule of 1000 dashes. -/
def longCommentFile : List Char :=
  "v 1 2 3\n#".toList ++ List.replicate 1000 '-' ++ ['\n']

/-- The line `mtllib` with a path of 1000 letters. -/
def longPathFile : List Char := "mtllib ".toList ++ List.replicate 1000 'a' ++ ['\n']

/-- The record `f 1//1 2//2 3//3` and the line `o` with an object name of 1000
letters. -/
def longNameFile : List Char :=
  "f 1//1 2//2 3//3\no ".toList ++ List.replicate 1000 'n' ++ ['\n']

/-- The word of the three bytes `v`, NUL, `x`. -/
def nulWord : List Char := ['v', Char.ofNat 0, 'x']

/-- The file `v 0 0 0`, `f 1//1 1//1 1//1` with, between the two records, the
line of the words `nulWord`, `1`, `2`, `3`. -/
def nulLineFile : List Char :=
  "v 0 0 0\n".toList ++ nulWord ++ " 1 2 3\nf 1//1 1//1 1//1\n".toList

/-- The file `v 0 0 0`, `f 1//1 1//1 1//1` with, between the two records, a
line of one word of 256 letters. -/
def fullBufferFile : List Char :=
  "v 0 0 0\n".toList ++ List.replicate 256 'u' ++ "\nf 1//1 1//1 1//1\n".toList

/-- A directive that is neither `%s` nor `%f`. -/
def Directive.isIntOnly : Directive → Bool
  | Directive.s _ => false
  | Directive.f => false
  | _ => true

/-- A directive that is neither `%s` nor `%d`. -/
def Directive.isFloatOnly : Directive → Bool
  | Directive.s _ => false
  | Directive.d => false
  | _ => true

/-! ## Scanning lemmas -/

theorem isSpace_of_isDigit {c : Char} (h : isDigit c = true) : isSpace c = false := by
  simp only [isDigit, Bool.and_eq_true, decide_eq_true_eq] at h
  simp only [isSpace, Bool.or_eq_false_iff, beq_eq_false_iff_ne, Bool.and_eq_false_iff,
    decide_eq_false_iff_not]
  omega

theorem isDigit_of_isSpace {c : Char} (h : isSpace c = true) : isDigit c = false := by
  cases hd : isDigit c
  · rfl
  · rw [isSpace_of_isDigit hd] at h; exact h.symm

theorem ne_of_isDigit {c d : Char} (h : isDigit c = true) (hd : isDigit d = false) : c ≠ d := by
  intro he; subst he; rw [h] at hd; exact Bool.noConfusion hd

theorem ne_of_isSpace {c d : Char} (h : isSpace c = true) (hd : isSpace d = false) : c ≠ d := by
  intro he; subst he; rw [h] at hd; exact Bool.noConfusion hd

theorem skipWs_cons_of_not_space {c : Char} (h : isSpace c = false) (r : List Char) :
    skipWs (c :: r) = c :: r := by
  simp [skipWs, h]

theorem skipWs_cons_of_space {c : Char} (h : isSpace c = true) (r : List Char) :
    skipWs (c :: r) = skipWs r := by
  simp [skipWs, h]

theorem skipWs_idem (s : List Char) : skipWs (skipWs s) = skipWs s := by
  induction s with
  | nil => rfl
  | cons c cs ih =>
    cases h : isSpace c
    · simp [skipWs, h]
    · simpa [skipWs, h] using ih

theorem skipWs_length_le (s : List Char) : (skipWs s).length ≤ s.length := by
  induction s with
  | nil => simp [skipWs]
  | cons c cs ih =>
    cases h : isSpace c
    · simp [skipWs, h]
    · simp only [skipWs, h, if_true, List.length_cons]; omega

theorem scanDigits_append (ds rest : List Char) (hd : AllDigits ds)
    (hr : ∀ c ∈ rest.head?, isDigit c = false) :
    scanDigits (ds ++ rest) = (ds, rest) := by
  induction ds with
  | nil =>
    cases rest with
    | nil => rfl
    | cons c r =>
      have : isDigit c = false := hr c (by simp)
      simp [scanDigits, this]
  | cons d ds ih =>
    have h1 : isDigit d = true := hd d (by simp)
    have h2 : AllDigits ds := fun c hc => hd c (by simp [hc])
    simp [scanDigits, h1, ih h2]

theorem scanSign_text (sg : Sign) (rest : List Char)
    (hr : ∀ c ∈ rest.head?, isDigit c = true ∨ c = '.') :
    scanSign (sg.text ++ rest) = (sg.isMinus, rest) := by
  cases sg with
  | plus => simp [Sign.text, Sign.isMinus, scanSign]
  | minus => simp [Sign.text, Sign.isMinus, scanSign]
  | none =>
    cases rest with
    | nil => rfl
    | cons c r =>
      have hc : c ≠ '-' ∧ c ≠ '+' := by
        rcases hr c (by simp) with h | h
        · exact ⟨ne_of_isDigit h (by decide), ne_of_isDigit h (by decide)⟩
        · subst h; exact ⟨by decide, by decide⟩
      simp [Sign.text, Sign.isMinus, scanSign, hc.1, hc.2]

theorem skipWs_sign_digits (sg : Sign) (rest : List Char)
    (hr : ∃ c r, rest = c :: r ∧ (isDigit c = true ∨ c = '.')) :
    skipWs (sg.text ++ rest) = sg.text ++ rest := by
  obtain ⟨c, r, rfl, hc⟩ := hr
  cases sg with
  | plus => exact skipWs_cons_of_not_space (by decide) _
  | minus => exact skipWs_cons_of_not_space (by decide) _
  | none =>
    refine skipWs_cons_of_not_space ?_ _
    rcases hc with h | h
    · exact isSpace_of_isDigit h
    · subst h; decide

theorem convD_text (n : IntNumeral) (hn : n.WF) (rest : List Char)
    (hr : ∀ c ∈ rest.head?, isDigit c = false) :
    convD (n.text ++ rest) = Conv.ok n.value rest := by
  obtain ⟨hne, hd, hint⟩ := hn
  obtain ⟨d, ds, hds⟩ := List.exists_cons_of_ne_nil hne
  have hdd : isDigit d = true := hd d (by simp [hds])
  have h1 : skipWs (n.sign.text ++ (n.digits ++ rest)) = n.sign.text ++ (n.digits ++ rest) :=
    skipWs_sign_digits _ _ ⟨d, ds ++ rest, by simp [hds], Or.inl hdd⟩
  have h2 : scanSign (n.sign.text ++ (n.digits ++ rest)) = (n.sign.isMinus, n.digits ++ rest) :=
    scanSign_text _ _ (by simp [hds, hdd])
  have h3 := scanDigits_append n.digits rest hd hr
  have h4 : ∃ c r, n.sign.text ++ (n.digits ++ rest) = c :: r := by
    cases n.sign <;> simp [Sign.text, hds]
  obtain ⟨c, r, h4⟩ := h4
  unfold convD
  simp only [IntNumeral.text, List.append_assoc, h1]
  rw [h4]
  simp only []
  rw [← h4, h2]
  simp only [IntNumeral.value] at hint
  simp only [h3, hne, if_false, IntNumeral.value, hint, if_true]

theorem expTail_head (e : Option (Bool × Sign × List Char)) (w : Char) (r : List Char)
    (hw : isSpace w = true) :
    ∃ c t, FloatNumeral.expText e ++ w :: r = c :: t ∧ isDigit c = false ∧ c ≠ '.' := by
  match e with
  | Option.none =>
    exact ⟨w, r, rfl, isDigit_of_isSpace hw, ne_of_isSpace hw (by decide)⟩
  | some (upper, sg, ds) =>
    cases upper
    · exact ⟨'e', _, rfl, by decide, by decide⟩
    · exact ⟨'E', _, rfl, by decide, by decide⟩

theorem scanExponent_text (e : Option (Bool × Sign × List Char)) (w : Char) (r : List Char)
    (hw : isSpace w = true) (he : ∀ x ∈ e, x.2.2 ≠ [] ∧ AllDigits x.2.2) :
    scanExponent (FloatNumeral.expText e ++ w :: r) = some (FloatNumeral.expValue e, w :: r) := by
  match e with
  | Option.none =>
    have h1 : w ≠ 'e' := ne_of_isSpace hw (by decide)
    have h2 : w ≠ 'E' := ne_of_isSpace hw (by decide)
    simp [FloatNumeral.expText, FloatNumeral.expValue, scanExponent, h1, h2]
  | some (upper, sg, ds) =>
    have hne : ds ≠ [] := (he (upper, sg, ds) rfl).1
    have hd : AllDigits ds := (he (upper, sg, ds) rfl).2
    obtain ⟨d, ds1, hds⟩ := List.exists_cons_of_ne_nil hne
    have hdd : isDigit d = true := hd d (by simp [hds])
    have h2 : scanSign (sg.text ++ (ds ++ w :: r)) = (sg.isMinus, ds ++ w :: r) :=
      scanSign_text _ _ (by simp [hds, hdd])
    have h3 := scanDigits_append ds (w :: r) hd (by simp [isDigit_of_isSpace hw])
    cases upper <;>
      simp [FloatNumeral.expText, FloatNumeral.expValue, scanExponent, h2, h3, hne]

theorem scanFraction_text (fr : Option (List Char)) (tail : List Char)
    (hd : AllDigits (fr.getD []))
    (ht : ∃ c t, tail = c :: t ∧ isDigit c = false ∧ c ≠ '.') :
    scanFraction (FloatNumeral.fracText fr ++ tail) = (fr.getD [], tail) := by
  obtain ⟨c, t, rfl, hc, hp⟩ := ht
  match fr with
  | Option.none => simp [FloatNumeral.fracText, scanFraction, hp]
  | some fd =>
    have := scanDigits_append fd (c :: t) hd (by simp [hc])
    simp [FloatNumeral.fracText, scanFraction, this]

theorem fracTail_head (fr : Option (List Char)) (tail : List Char)
    (ht : ∃ c t, tail = c :: t ∧ isDigit c = false ∧ c ≠ '.') :
    ∃ c t, FloatNumeral.fracText fr ++ tail = c :: t ∧ isDigit c = false := by
  obtain ⟨c, t, rfl, hc, _⟩ := ht
  match fr with
  | Option.none => exact ⟨c, t, rfl, hc⟩
  | some fd => exact ⟨'.', _, rfl, by decide⟩

theorem mantissa_head (n : FloatNumeral) (hn : n.WF) (tail : List Char) :
    ∃ c t, n.intDigits ++ (FloatNumeral.fracText n.fraction ++ tail) = c :: t ∧
      (isDigit c = true ∨ c = '.') := by
  obtain ⟨hi, _, hne, _⟩ := hn
  cases hip : n.intDigits with
  | cons d ds => exact ⟨d, _, rfl, Or.inl (hi d (by simp [hip]))⟩
  | nil =>
    cases hfr : n.fraction with
    | none => simp [hip, FloatNumeral.fracDigits, hfr] at hne
    | some fd => exact ⟨'.', _, rfl, Or.inr rfl⟩

theorem convF_text (n : FloatNumeral) (hn : n.WF) (w : Char) (r : List Char)
    (hw : isSpace w = true) :
    convF (n.text ++ w :: r) = Conv.ok n.value (w :: r) := by
  have hn1 := hn
  obtain ⟨hi, hf, hne, he⟩ := hn1
  have hE := expTail_head n.exponent w r hw
  have hF := fracTail_head n.fraction _ hE
  obtain ⟨c0, t0, hM, hc0⟩ := mantissa_head n hn (FloatNumeral.expText n.exponent ++ w :: r)
  have h1 : skipWs (n.sign.text ++ (n.intDigits ++ (FloatNumeral.fracText n.fraction ++
      (FloatNumeral.expText n.exponent ++ w :: r)))) = _ :=
    skipWs_sign_digits _ _ ⟨c0, t0, hM, hc0⟩
  have h2 : scanSign (n.sign.text ++ (n.intDigits ++ (FloatNumeral.fracText n.fraction ++
      (FloatNumeral.expText n.exponent ++ w :: r)))) = (n.sign.isMinus, _) :=
    scanSign_text _ _ (by rw [hM]; simpa using hc0)
  have h3 := scanDigits_append n.intDigits (FloatNumeral.fracText n.fraction ++
      (FloatNumeral.expText n.exponent ++ w :: r)) hi (by
        obtain ⟨c, t, hct, hc⟩ := hF
        rw [hct]; simpa using hc)
  have h4 := scanFraction_text n.fraction _ hf hE
  have h5 := scanExponent_text n.exponent w r hw he
  have h6 : ∃ c t, n.sign.text ++ (n.intDigits ++ (FloatNumeral.fracText n.fraction ++
      (FloatNumeral.expText n.exponent ++ w :: r))) = c :: t := by
    rw [hM]; cases n.sign <;> simp [Sign.text]
  obtain ⟨c, t, h6⟩ := h6
  have h7 : ¬(n.intDigits = [] ∧ n.fraction.getD [] = []) := by
    intro h; rcases hne with h0 | h0
    · exact h0 h.1
    · exact h0 h.2
  unfold convF
  simp only [FloatNumeral.text, List.append_assoc, h1]
  rw [h6]
  simp only []
  rw [← h6, h2]
  simp only [h3, h4, h5, h7, if_false, FloatNumeral.value, FloatNumeral.fracDigits]

theorem convS_skipWs (size : Nat) (s : List Char) : convS size (skipWs s) = convS size s := by
  simp [convS, skipWs_idem]

theorem convD_skipWs (s : List Char) : convD (skipWs s) = convD s := by
  simp [convD, skipWs_idem]

theorem convF_skipWs (s : List Char) : convF (skipWs s) = convF s := by
  simp [convF, skipWs_idem]

theorem fscanf_fmtTag_skipWs (s : List Char) : fscanf fmtTag (skipWs s) = fscanf fmtTag s := by
  simp [fscanf, fmtTag, fscanfAux, convS_skipWs]

theorem fscanf_fmtVertex_skipWs (s : List Char) :
    fscanf fmtVertex (skipWs s) = fscanf fmtVertex s := by
  simp [fscanf, fmtVertex, fscanfAux, convF_skipWs]

theorem fscanf_fmtFace_skipWs (s : List Char) :
    fscanf fmtFace (skipWs s) = fscanf fmtFace s := by
  simp [fscanf, fmtFace, fscanfAux, convD_skipWs]

theorem fscanf_fmtTag_v (more : List Char) :
    fscanf fmtTag ('v' :: ' ' :: more) = ⟨1, [Arg.str ['v']], skipWs more, false⟩ := by
  have h1 : isSpace 'v' = false := by decide
  have h2 : isSpace ' ' = true := by decide
  simp [fscanf, fmtTag, fscanfAux, convS, skipWs, scanWord, h1, h2]

theorem fscanf_fmtTag_f (more : List Char) :
    fscanf fmtTag ('f' :: ' ' :: more) = ⟨1, [Arg.str ['f']], skipWs more, false⟩ := by
  have h1 : isSpace 'f' = false := by decide
  have h2 : isSpace ' ' = true := by decide
  simp [fscanf, fmtTag, fscanfAux, convS, skipWs, scanWord, h1, h2]

theorem fscanf_fmtVertex_text (x y z : FloatNumeral) (hx : x.WF) (hy : y.WF) (hz : z.WF)
    (rest : List Char) :
    fscanf fmtVertex (x.text ++ ' ' :: (y.text ++ ' ' :: (z.text ++ '\n' :: rest))) =
      ⟨3, [Arg.flt x.value, Arg.flt y.value, Arg.flt z.value], skipWs rest, false⟩ := by
  have h1 : isSpace ' ' = true := by decide
  have h2 : isSpace '\n' = true := by decide
  simp [fscanf, fmtVertex, fscanfAux, convF_text _ hx _ _ h1, convF_text _ hy _ _ h1,
    convF_text _ hz _ _ h2, skipWs_cons_of_space h1, skipWs_cons_of_space h2, convF_skipWs]

theorem fscanf_fmtFace_text (a na b nb c nc : IntNumeral) (ha : a.WF) (hna : na.WF)
    (hb : b.WF) (hnb : nb.WF) (hc : c.WF) (hnc : nc.WF) (rest : List Char) :
    fscanf fmtFace (a.text ++ '/' :: '/' :: (na.text ++ ' ' :: (b.text ++ '/' :: '/' ::
      (nb.text ++ ' ' :: (c.text ++ '/' :: '/' :: (nc.text ++ '\n' :: rest)))))) =
      ⟨6, [Arg.int a.value, Arg.int na.value, Arg.int b.value, Arg.int nb.value,
        Arg.int c.value, Arg.int nc.value], skipWs rest, false⟩ := by
  have h1 : isSpace ' ' = true := by decide
  have h2 : isSpace '\n' = true := by decide
  have d1 : ∀ r : List Char, ∀ ch ∈ ('/' :: r).head?, isDigit ch = false := by
    intro r ch h; simp at h; subst h; decide
  have d2 : ∀ r : List Char, ∀ ch ∈ (' ' :: r).head?, isDigit ch = false := by
    intro r ch h; simp at h; subst h; decide
  have d3 : ∀ r : List Char, ∀ ch ∈ ('\n' :: r).head?, isDigit ch = false := by
    intro r ch h; simp at h; subst h; decide
  simp [fscanf, fmtFace, fscanfAux, convD_text _ ha _ (d1 _), convD_text _ hna _ (d2 _),
    convD_text _ hb _ (d1 _), convD_text _ hnb _ (d2 _), convD_text _ hc _ (d1 _),
    convD_text _ hnc _ (d3 _), skipWs_cons_of_space h1, skipWs_cons_of_space h2, convD_skipWs]

theorem indexByte_store (v : Int) :
    indexByte (v % 4294967296).toNat = ((v - 1) % 256).toNat := by
  unfold indexByte; omega

theorem normalByte_store (v : Int) :
    normalByte (v % 4294967296).toNat = (v % 256).toNat := by
  unfold normalByte; omega

theorem loopBody_render (u : Uninit) (st : Scan) (r : Record) (hr : r.WF) (rest : List Char)
    (hfile : st.currentFile = r.render rest) (hr1 : r.steps = 1 ∧ ∀ ws, r ≠ Record.other ws) :
    loopBody u st = Step.next { Record.apply st r with currentFile := skipWs rest } := by
  cases r with
  | other ws => exact absurd rfl (hr1.2 ws)
  | v x y z =>
    obtain ⟨hx, hy, hz⟩ := hr
    simp [loopBody, hfile, Record.render, fscanf_fmtTag_v, fscanf_fmtVertex_skipWs,
      fscanf_fmtVertex_text x y z hx hy hz, EOF, argStr, cstr, argFlt, Record.apply]
  | f a na b nb c nc =>
    obtain ⟨ha, hna, hb, hnb, hc, hnc⟩ := hr
    simp [loopBody, hfile, Record.render, fscanf_fmtTag_f, fscanf_fmtFace_skipWs,
      fscanf_fmtFace_text a na b nb c nc ha hna hb hnb hc hnc, EOF, argStr, cstr, argUInt,
      Record.apply, pushFace, indexByte_store, normalByte_store, Record.faceData,
      Record.normalData]

/-! ## Every iteration that does not break consumes input -/

theorem skipWs_head {s : List Char} {c : Char} {cs : List Char} (h : skipWs s = c :: cs) :
    isSpace c = false := by
  induction s with
  | nil => simp [skipWs] at h
  | cons d ds ih =>
    cases hd : isSpace d
    · simp [skipWs, hd] at h
      rw [← h.1]; exact hd
    · simp [skipWs, hd] at h
      exact ih h

theorem scanWord_length_le (s : List Char) : (scanWord s).2.length ≤ s.length := by
  induction s with
  | nil => simp [scanWord]
  | cons c cs ih =>
    cases h : isSpace c
    · simp only [scanWord, h, List.length_cons]
      simp only [Bool.false_eq_true, if_false]; omega
    · simp [scanWord, h]

theorem scanDigits_length_le (s : List Char) : (scanDigits s).2.length ≤ s.length := by
  induction s with
  | nil => simp [scanDigits]
  | cons c cs ih =>
    cases h : isDigit c
    · simp [scanDigits, h]
    · simp only [scanDigits, h, if_true, List.length_cons]; omega

theorem scanSign_length_le (s : List Char) : (scanSign s).2.length ≤ s.length := by
  cases s with
  | nil => simp [scanSign]
  | cons c cs =>
    simp only [scanSign]
    split_ifs <;> simp

theorem scanFraction_length_le (s : List Char) : (scanFraction s).2.length ≤ s.length := by
  cases s with
  | nil => simp [scanFraction]
  | cons c cs =>
    simp only [scanFraction]
    split_ifs
    · have := scanDigits_length_le cs
      simp only [List.length_cons]; omega
    · simp

theorem scanExponent_length_le {s : List Char} {e : Int} {rest : List Char}
    (h : scanExponent s = some (e, rest)) : rest.length ≤ s.length := by
  cases s with
  | nil => simp [scanExponent] at h; simp [h.2]
  | cons c cs =>
    simp only [scanExponent] at h
    have h1 := scanDigits_length_le (scanSign cs).2
    have h2 := scanSign_length_le cs
    split_ifs at h <;> simp only [Option.some.injEq, Prod.mk.injEq] at h <;>
      (obtain ⟨_, rfl⟩ := h; first | exact le_refl _ | (simp only [List.length_cons]; omega))

theorem exponentRest_length_le (s : List Char) : (exponentRest s).length ≤ s.length := by
  cases s with
  | nil => simp [exponentRest]
  | cons c cs =>
    have h1 := scanDigits_length_le (scanSign cs).2
    have h2 := scanSign_length_le cs
    simp only [exponentRest, List.length_cons]; omega

theorem convS_restLt (size : Nat) (s : List Char) {v rest : List Char}
    (h : convS size s = Conv.ok v rest) :
    rest.length < s.length := by
  unfold convS at h
  have hl := skipWs_length_le s
  cases hs : skipWs s with
  | nil => simp [hs] at h
  | cons c cs =>
    have hc := skipWs_head hs
    rw [hs] at h hl
    simp only [] at h
    split_ifs at h
    simp only [scanWord, hc, Conv.ok.injEq] at h
    have := scanWord_length_le cs
    simp only [Bool.false_eq_true, if_false] at h
    rw [← h.2]
    simp only [List.length_cons] at hl
    omega

theorem convS_ne_matchFail (size : Nat) (s rest : List Char) :
    convS size s ≠ Conv.matchFail rest := by
  unfold convS
  cases hs : skipWs s with
  | nil => simp
  | cons c cs => simp only []; split_ifs <;> simp

theorem convS_restLe (size : Nat) (s : List Char) : (convS size s).RestLe s.length := by
  cases h : convS size s with
  | ok v rest => have := convS_restLt size s h; simp only [Conv.RestLe]; omega
  | matchFail rest => simp [Conv.RestLe]; exact absurd h (convS_ne_matchFail size s rest)
  | inputFail => simp [Conv.RestLe]
  | undefined => simp [Conv.RestLe]

theorem convD_restLe (s : List Char) : (convD s).RestLe s.length := by
  unfold convD
  have hl := skipWs_length_le s
  cases hs : skipWs s with
  | nil => simp [Conv.RestLe]
  | cons c cs =>
    rw [hs] at hl
    have h1 := scanSign_length_le (c :: cs)
    have h2 := scanDigits_length_le (scanSign (c :: cs)).2
    simp only []
    split_ifs <;> simp only [Conv.RestLe] <;> omega

theorem convF_restLe (s : List Char) : (convF s).RestLe s.length := by
  unfold convF
  have hl := skipWs_length_le s
  cases hs : skipWs s with
  | nil => simp [Conv.RestLe]
  | cons c cs =>
    rw [hs] at hl
    have h1 := scanSign_length_le (c :: cs)
    have h2 := scanDigits_length_le (scanSign (c :: cs)).2
    have h3 := scanFraction_length_le (scanDigits (scanSign (c :: cs)).2).2
    simp only []
    split_ifs
    · simp only [Conv.RestLe]; omega
    · cases he : scanExponent (scanFraction (scanDigits (scanSign (c :: cs)).2).2).2 with
      | none =>
        have h4 := exponentRest_length_le (scanFraction (scanDigits (scanSign (c :: cs)).2).2).2
        simp only [Conv.RestLe]; omega
      | some p =>
        obtain ⟨e, rest⟩ := p
        have h4 := scanExponent_length_le he
        simp only [Conv.RestLe]; omega

theorem fscanfAux_rest_le (ds : List Directive) :
    ∀ (inp : List Char) (acc : List Arg), (fscanfAux ds inp acc).rest.length ≤ inp.length := by
  induction ds with
  | nil => intro inp acc; simp [fscanfAux]
  | cons dir ds ih =>
    intro inp acc
    cases dir with
    | ws =>
      have := ih (skipWs inp) acc
      have := skipWs_length_le inp
      simp only [fscanfAux]; omega
    | lit c =>
      cases inp with
      | nil => simp [fscanfAux, inputFailure]
      | cons c1 cs =>
        simp only [fscanfAux]
        split_ifs
        · have := ih cs acc
          simp only [List.length_cons]; omega
        · simp
    | s size =>
      simp only [fscanfAux]
      have hc := convS_restLe size inp
      cases h : convS size inp with
      | ok v rest =>
        rw [h] at hc; simp only [Conv.RestLe] at hc
        have := ih rest (acc ++ [Arg.str v])
        simp only []; omega
      | matchFail rest =>
        rw [h] at hc; simp only [Conv.RestLe] at hc
        simpa using hc
      | inputFail => simp [inputFailure]
      | undefined => simp
    | d =>
      simp only [fscanfAux]
      have hc := convD_restLe inp
      cases h : convD inp with
      | ok v rest =>
        rw [h] at hc; simp only [Conv.RestLe] at hc
        have := ih rest (acc ++ [Arg.int v])
        simp only []; omega
      | matchFail rest =>
        rw [h] at hc; simp only [Conv.RestLe] at hc
        simpa using hc
      | inputFail => simp [inputFailure]
      | undefined => simp
    | f =>
      simp only [fscanfAux]
      have hc := convF_restLe inp
      cases h : convF inp with
      | ok v rest =>
        rw [h] at hc; simp only [Conv.RestLe] at hc
        have := ih rest (acc ++ [Arg.flt v])
        simp only []; omega
      | matchFail rest =>
        rw [h] at hc; simp only [Conv.RestLe] at hc
        simpa using hc
      | inputFail => simp [inputFailure]
      | undefined => simp

theorem fscanf_rest_le (fmt : List Directive) (inp : List Char) :
    (fscanf fmt inp).rest.length ≤ inp.length :=
  fscanfAux_rest_le fmt inp []

theorem fscanf_fmtTag_lt (inp : List Char) (hu : (fscanf fmtTag inp).undefined = false)
    (h : (fscanf fmtTag inp).ret ≠ EOF) :
    (fscanf fmtTag inp).rest.length < inp.length := by
  simp only [fscanf, fmtTag, fscanfAux] at h hu ⊢
  cases hc : convS 256 inp with
  | ok v rest =>
    have := convS_restLt 256 inp hc
    have := skipWs_length_le rest
    simp only []; omega
  | matchFail rest => exact absurd hc (convS_ne_matchFail 256 inp rest)
  | inputFail => rw [hc] at h; simp [inputFailure] at h
  | undefined => rw [hc] at hu; simp at hu

theorem loopBody_next_lt (u : Uninit) (st st1 : Scan) (h : loopBody u st = Step.next st1) :
    st1.currentFile.length < st.currentFile.length := by
  unfold loopBody at h
  simp only [] at h
  split_ifs at h with hu h0 h1 h2 h3 h4 h5
  · have a := fscanf_fmtTag_lt _ (by simpa using hu) h0
    have b := fscanf_rest_le fmtVertex (fscanf fmtTag st.currentFile).rest
    simp only [Step.next.injEq] at h
    rw [← h]; simp only []; omega
  · have a := fscanf_fmtTag_lt _ (by simpa using hu) h0
    have b := fscanf_rest_le fmtFace (fscanf fmtTag st.currentFile).rest
    simp only [Step.next.injEq] at h
    rw [← h]; simp only []; omega
  · have a := fscanf_fmtTag_lt _ (by simpa using hu) h0
    simp only [Step.next.injEq] at h
    rw [← h]; simp only []; omega

theorem scanLoop_enough (u : Uninit) :
    ∀ (n m : Nat) (st : Scan), st.currentFile.length < n → st.currentFile.length < m →
      scanLoop u n st = scanLoop u m st ∧ scanLoop u n st ≠ Run.outOfFuel := by
  intro n
  induction n with
  | zero => intro m st h; omega
  | succ n ih =>
    intro m st hn hm
    cases m with
    | zero => omega
    | succ m =>
      simp only [scanLoop]
      cases hb : loopBody u st with
      | stop st1 => exact ⟨rfl, fun h => Run.noConfusion h⟩
      | undefined => exact ⟨rfl, fun h => Run.noConfusion h⟩
      | next st1 =>
        have := loopBody_next_lt u st st1 hb
        exact ih m st1 (by omega) (by omega)

theorem scanLoop_total (u : Uninit) (n : Nat) (st : Scan) (h : st.currentFile.length < n) :
    scanLoop u n st ≠ Run.outOfFuel :=
  (scanLoop_enough u n n st h h).2

theorem scanLoop_fuel (u : Uninit) (n m : Nat) (st : Scan) (hn : st.currentFile.length < n)
    (hm : st.currentFile.length < m) : scanLoop u n st = scanLoop u m st :=
  (scanLoop_enough u n m st hn hm).1

/-! ## The loop on a sequence of well-formed records -/

theorem loopBody_skipWs (u : Uninit) (st : Scan) (s : List Char) :
    loopBody u { st with currentFile := skipWs s } = loopBody u { st with currentFile := s } := by
  simp [loopBody, fscanf_fmtTag_skipWs]

theorem scanLoop_skipWs (u : Uninit) (n : Nat) (st : Scan) (s : List Char) :
    scanLoop u n { st with currentFile := skipWs s } =
      scanLoop u n { st with currentFile := s } := by
  cases n with
  | zero => rfl
  | succ n => simp only [scanLoop, loopBody_skipWs]

theorem loopBody_eof (u : Uninit) (st : Scan) :
    loopBody u { st with currentFile := [] } = Step.stop { st with currentFile := [] } := by
  simp [loopBody, fscanf, fmtTag, fscanfAux, convS, skipWs, inputFailure, EOF]

theorem scanLoop_eof (u : Uninit) (n : Nat) (st : Scan) :
    scanLoop u (n + 1) { st with currentFile := [] } =
      Run.returns { st with currentFile := [] } := by
  simp only [scanLoop, loopBody_eof]

theorem apply_setFile (st : Scan) (r : Record) (a b : List Char) :
    { Record.apply { st with currentFile := a } r with currentFile := b } =
      { Record.apply st r with currentFile := b } := by
  cases r <;> rfl

theorem scanWord_stop (tail : List Char) (h : ∀ c ∈ tail.head?, isSpace c = true) :
    scanWord tail = ([], tail) := by
  cases tail with
  | nil => rfl
  | cons c r =>
    have hc : isSpace c = true := h c (by simp)
    simp [scanWord, hc]

theorem scanWord_word (w : List Char) (hw : ∀ c ∈ w, isSpace c = false) (tail : List Char)
    (h : ∀ c ∈ tail.head?, isSpace c = true) : scanWord (w ++ tail) = (w, tail) := by
  induction w with
  | nil => exact scanWord_stop tail h
  | cons c cs ih =>
    have hc : isSpace c = false := hw c (by simp)
    have := ih (fun c1 h1 => hw c1 (by simp [h1]))
    simp [scanWord, hc, this]

theorem fscanf_fmtTag_word (w : List Char) (hne : w ≠ []) (hw : ∀ c ∈ w, isSpace c = false)
    (hlen : w.length < 256) (tail : List Char) (h : ∀ c ∈ tail.head?, isSpace c = true) :
    fscanf fmtTag (w ++ tail) = ⟨1, [Arg.str w], skipWs tail, false⟩ := by
  obtain ⟨c, cs, rfl⟩ := List.exists_cons_of_ne_nil hne
  have hc : isSpace c = false := hw c (by simp)
  have h1 : skipWs (c :: cs ++ tail) = c :: cs ++ tail := skipWs_cons_of_not_space hc _
  have h2 := scanWord_word (c :: cs) hw tail h
  simp only [fscanf, fmtTag, fscanfAux, convS, h1]
  simp only [List.cons_append] at h2 ⊢
  simp only [List.length_cons] at hlen
  simp [h2, hlen]

theorem loopBody_badFace (u : Uninit) (st : Scan) (tail : List Char)
    (hfile : st.currentFile = 'f' :: tail) (htail : ∀ c ∈ tail.head?, isSpace c = true)
    (hdef : (fscanf fmtFace tail).undefined = false) (hbad : (fscanf fmtFace tail).ret ≠ 6) :
    loopBody u st = Step.stop (badFaceStop u st (fscanf fmtFace tail)) := by
  have ht := fscanf_fmtTag_word ['f'] (by simp) (by decide) (by decide) tail htail
  simp only [List.singleton_append] at ht
  simp [loopBody, hfile, ht, EOF, argStr, cstr, fscanf_fmtFace_skipWs, hbad, hdef, badFaceStop]

theorem loopBody_junkWord (u : Uninit) (st : Scan) (w : List Char) (hw : IsJunkWord w)
    (c : Char) (hc : isSpace c = true) (rest : List Char)
    (hfile : st.currentFile = w ++ c :: rest) :
    loopBody u st = Step.next { st with currentFile := skipWs rest } := by
  obtain ⟨hne, hsp, hlen, hv, hf⟩ := hw
  have ht := fscanf_fmtTag_word w hne (fun c1 h1 => (hsp c1 h1).1) hlen (c :: rest)
    (by simp [hc])
  simp [loopBody, hfile, ht, EOF, argStr, hv, hf, skipWs_cons_of_space hc]

theorem scanLoop_junkLine (u : Uninit) (rest : List Char) (fuel : Nat) :
    ∀ (ws : List (List Char)) (st : Scan), (∀ w ∈ ws, IsJunkWord w) →
      scanLoop u (ws.length + fuel) { st with currentFile := junkLine ws rest } =
        scanLoop u fuel { st with currentFile := rest } := by
  intro ws
  induction ws with
  | nil =>
    intro st _
    have h := scanLoop_skipWs u fuel st ('\n' :: rest)
    rw [skipWs_cons_of_space (by decide), scanLoop_skipWs] at h
    simpa [junkLine] using h.symm
  | cons w ws ih =>
    intro st hws
    have hw : IsJunkWord w := hws w (by simp)
    have hrest : ∀ w1 ∈ ws, IsJunkWord w1 := fun w1 h1 => hws w1 (by simp [h1])
    have hf : (w :: ws).length + fuel = (ws.length + fuel) + 1 := by
      simp only [List.length_cons]; omega
    rw [hf]
    cases ws with
    | nil =>
      have hb := loopBody_junkWord u { st with currentFile := junkLine [w] rest } w hw '\n'
        (by decide) rest rfl
      simp only [scanLoop, hb]
      simpa using scanLoop_skipWs u fuel st rest
    | cons w2 ws =>
      have hb := loopBody_junkWord u { st with currentFile := junkLine (w :: w2 :: ws) rest }
        w hw ' ' (by decide) (junkLine (w2 :: ws) rest) rfl
      simp only [scanLoop, hb]
      have := scanLoop_skipWs u ((w2 :: ws).length + fuel) st (junkLine (w2 :: ws) rest)
      simp only [] at this ⊢
      rw [this]
      exact ih st hrest

theorem junkLine_length (ws : List (List Char)) (rest : List Char) :
    ws.length + rest.length ≤ (junkLine ws rest).length := by
  induction ws with
  | nil => simp [junkLine]
  | cons w ws ih =>
    cases ws with
    | nil => simp [junkLine]; omega
    | cons w2 ws =>
      simp only [junkLine, List.length_append, List.length_cons] at ih ⊢
      omega

theorem scanLoop_record (u : Uninit) (rest : List Char) (fuel : Nat) (r : Record) (hr : r.WF)
    (st : Scan) :
    scanLoop u (r.steps + fuel) { st with currentFile := r.render rest } =
      scanLoop u fuel { Record.apply st r with currentFile := rest } := by
  cases r with
  | other ws => exact scanLoop_junkLine u rest fuel ws st hr
  | v x y z =>
    have hb := loopBody_render u { st with currentFile := (Record.v x y z).render rest } _ hr
      rest rfl ⟨rfl, fun ws h => Record.noConfusion h⟩
    rw [apply_setFile] at hb
    have hf : (Record.v x y z).steps + fuel = fuel + 1 := by simp only [Record.steps]; omega
    rw [hf]
    simp only [scanLoop, hb]
    exact scanLoop_skipWs u fuel _ rest
  | f a na b nb c nc =>
    have hb := loopBody_render u
      { st with currentFile := (Record.f a na b nb c nc).render rest } _ hr
      rest rfl ⟨rfl, fun ws h => Record.noConfusion h⟩
    rw [apply_setFile] at hb
    have hf : (Record.f a na b nb c nc).steps + fuel = fuel + 1 := by
      simp only [Record.steps]; omega
    rw [hf]
    simp only [scanLoop, hb]
    exact scanLoop_skipWs u fuel _ rest

theorem scanLoop_renderOnto (u : Uninit) (rest : List Char) (fuel : Nat) :
    ∀ (rs : List Record) (st : Scan), (∀ r ∈ rs, r.WF) →
      scanLoop u (stepsOf rs + fuel) { st with currentFile := renderOnto rs rest } =
        scanLoop u fuel { applyRecords st rs with currentFile := rest } := by
  intro rs
  induction rs with
  | nil => intro st _; simp [renderOnto, applyRecords, stepsOf]
  | cons r rs ih =>
    intro st hwf
    have hr : r.WF := hwf r (by simp)
    have hrs : ∀ r1 ∈ rs, r1.WF := fun r1 h1 => hwf r1 (by simp [h1])
    have hf : stepsOf (r :: rs) + fuel = r.steps + (stepsOf rs + fuel) := by
      simp only [stepsOf]; omega
    rw [hf]
    simp only [renderOnto]
    rw [scanLoop_record u _ _ r hr st, ih (Record.apply st r) hrs]
    rfl

theorem render_length (r : Record) (rest : List Char) :
    r.steps + rest.length ≤ (r.render rest).length := by
  cases r with
  | other ws => exact junkLine_length ws rest
  | v x y z => simp [Record.render, Record.steps]; omega
  | f a na b nb c nc => simp [Record.render, Record.steps]; omega

theorem renderOnto_length (rs : List Record) (rest : List Char) :
    stepsOf rs + rest.length ≤ (renderOnto rs rest).length := by
  induction rs with
  | nil => simp [renderOnto, stepsOf]
  | cons r rs ih =>
    have := render_length r (renderOnto rs rest)
    simp only [renderOnto, stepsOf]; omega

theorem applyRecords_cons (st : Scan) (r : Record) (rs : List Record) :
    applyRecords st (r :: rs) = applyRecords (Record.apply st r) rs := rfl

theorem applyRecords_fields (rs : List Record) :
    ∀ st : Scan,
      (applyRecords st rs).newObject.vertexList =
          st.newObject.vertexList ++ rs.flatMap Record.vertexData ∧
      (applyRecords st rs).newObject.faceList =
          st.newObject.faceList ++ rs.flatMap Record.faceData ∧
      (applyRecords st rs).newObject.normalList =
          st.newObject.normalList ++ rs.flatMap Record.normalData ∧
      (applyRecords st rs).newObject.name = st.newObject.name ∧
      (applyRecords st rs).newObject.x = st.newObject.x ∧
      (applyRecords st rs).newObject.y = st.newObject.y ∧
      (applyRecords st rs).newObject.rz = st.newObject.rz ∧
      (applyRecords st rs).newObject.colour = st.newObject.colour ∧
      (applyRecords st rs).out = st.out := by
  induction rs with
  | nil => intro st; simp [applyRecords]
  | cons r rs ih =>
    intro st
    rw [applyRecords_cons]
    obtain ⟨h1, h2, h3, h4, h5, h6, h7, h8, h9⟩ := ih (Record.apply st r)
    rw [h1, h2, h3, h4, h5, h6, h7, h8, h9]
    cases r <;>
      simp [Record.apply, Record.vertexData, Record.faceData, Record.normalData]

/-- On a file that starts with well-formed records, `loadObj` is the loop run
on what follows them, from the state the records leave behind. -/
theorem loadObj_renderOnto (sep : String) (fopen : String → Option (List Char)) (u : Uninit)
    (objFile : String) (foo : SDL_Colour) (posX posY rotZ : GLfloat)
    (rs : List Record) (rest : List Char) (hwf : ∀ r ∈ rs, r.WF)
    (hopen : fopen (fileName sep objFile) = some (renderOnto rs rest)) :
    loadObj sep fopen u objFile foo posX posY rotZ =
      (scanLoop u (rest.length + 1)
        { applyRecords (initScan (initObject u objFile foo posX posY rotZ)
            (fileName sep objFile) []) rs with currentFile := rest }).map
        (fun st => (st.newObject, st.out)) := by
  have hlen := renderOnto_length rs rest
  have hf : (renderOnto rs rest).length + 1 =
      stepsOf rs + ((renderOnto rs rest).length + 1 - stepsOf rs) := by omega
  have h1 := scanLoop_renderOnto u rest ((renderOnto rs rest).length + 1 - stepsOf rs) rs
    (initScan (initObject u objFile foo posX posY rotZ) (fileName sep objFile) []) hwf
  rw [← hf] at h1
  have h2 := scanLoop_fuel u ((renderOnto rs rest).length + 1 - stepsOf rs) (rest.length + 1)
    { applyRecords (initScan (initObject u objFile foo posX posY rotZ)
        (fileName sep objFile) []) rs with currentFile := rest }
    (by simp only []; omega) (by simp only []; omega)
  unfold loadObj
  simp only [hopen]
  rw [← h2, ← h1]
  rfl

/-- On a well-formed file `loadObj` returns the object the records describe,
and prints only the line that announces the file. -/
theorem loadObj_renderFile (sep : String) (fopen : String → Option (List Char)) (u : Uninit)
    (objFile : String) (foo : SDL_Colour) (posX posY rotZ : GLfloat)
    (rs : List Record) (hwf : ∀ r ∈ rs, r.WF)
    (hopen : fopen (fileName sep objFile) = some (renderFile rs)) :
    ∃ g, loadObj sep fopen u objFile foo posX posY rotZ =
        Run.returns (g, [Msg.attempting (fileName sep objFile)]) ∧
      g.vertexList = rs.flatMap Record.vertexData ∧
      g.faceList = rs.flatMap Record.faceData ∧
      g.normalList = rs.flatMap Record.normalData := by
  rw [loadObj_renderOnto sep fopen u objFile foo posX posY rotZ rs [] hwf hopen]
  obtain ⟨h1, h2, h3, _, _, _, _, _, h9⟩ := applyRecords_fields rs
    (initScan (initObject u objFile foo posX posY rotZ) (fileName sep objFile) [])
  refine ⟨(applyRecords (initScan (initObject u objFile foo posX posY rotZ)
    (fileName sep objFile) []) rs).newObject, ?_, ?_, ?_, ?_⟩
  · rw [List.length_nil, scanLoop_eof]
    simp only [Run.map, h9]
    rfl
  · simpa [initScan, initObject] using h1
  · simpa [initScan, initObject] using h2
  · simpa [initScan, initObject] using h3


/-! ## Malformed face records, words that are no tag, and the frame -/

theorem loopBody_frame (u : Uninit) (st : Scan) :
    ∀ st1 ∈ (loopBody u st).scan, st1.newObject.SameFrame st.newObject := by
  unfold loopBody
  simp only []
  split_ifs <;> simp [Step.scan, GameObject.SameFrame, pushFace]

theorem scanLoop_frame (u : Uninit) :
    ∀ (n : Nat) (st r : Scan), scanLoop u n st = Run.returns r →
      r.newObject.SameFrame st.newObject := by
  intro n
  induction n with
  | zero => intro st r h; simp [scanLoop] at h
  | succ n ih =>
    intro st r h
    have hf := loopBody_frame u st
    simp only [scanLoop] at h
    cases hb : loopBody u st with
    | stop st1 =>
      rw [hb] at h hf
      simp only [Run.returns.injEq] at h
      subst h
      exact hf st1 (by simp [Step.scan])
    | undefined =>
      rw [hb] at h
      exact Run.noConfusion h
    | next st1 =>
      rw [hb] at h hf
      have h1 := ih st1 r h
      have hf := hf st1 (by simp [Step.scan])
      exact ⟨h1.1.trans hf.1, h1.2.1.trans hf.2.1, h1.2.2.1.trans hf.2.2.1,
        h1.2.2.2.1.trans hf.2.2.2.1, h1.2.2.2.2.trans hf.2.2.2.2⟩


/-! ## Face and vertex records of well-formed files -/

theorem faceData_inRange (r : Record) (h : r.InRange) :
    r.faceData = r.faceTriple ∧ r.normalData = r.normalTriple := by
  cases r with
  | v x y z => simp [Record.faceData, Record.faceTriple, Record.normalData, Record.normalTriple]
  | other ws => simp [Record.faceData, Record.faceTriple, Record.normalData, Record.normalTriple]
  | f a na b nb c nc =>
    obtain ⟨ha, hb, hc, hna, hnb, hnc⟩ := h
    simp only [Record.faceData, Record.faceTriple, Record.normalData, Record.normalTriple,
      List.cons.injEq, and_true]
    omega

theorem flatMap_faceData_inRange (rs : List Record) (h : ∀ r ∈ rs, r.InRange) :
    rs.flatMap Record.faceData = rs.flatMap Record.faceTriple ∧
    rs.flatMap Record.normalData = rs.flatMap Record.normalTriple := by
  induction rs with
  | nil => simp
  | cons r rs ih =>
    have h1 := faceData_inRange r (h r (by simp))
    have h2 := ih (fun r1 hr1 => h r1 (by simp [hr1]))
    simp only [List.flatMap_cons, h1.1, h1.2, h2.1, h2.2, and_self]

theorem flatMap_vertexData (rs : List Record) :
    rs.flatMap Record.vertexData =
      (vertexRecords rs).flatMap (fun t => [t.1, t.2.1, t.2.2]) := by
  induction rs with
  | nil => rfl
  | cons r rs ih =>
    cases r <;> simp [vertexRecords, Record.vertexData, ih]

theorem flatMap_triple_length {α : Type} (ts : List (α × α × α)) :
    (ts.flatMap (fun t => [t.1, t.2.1, t.2.2])).length = 3 * ts.length := by
  induction ts with
  | nil => rfl
  | cons t ts ih => simp only [List.flatMap_cons, List.length_append, ih, List.length_cons,
      List.length_nil]; omega

theorem flatMap_triple_get {α : Type} (ts : List (α × α × α)) :
    ∀ (k : Nat) (t : α × α × α), ts[k]? = some t →
      (ts.flatMap (fun t => [t.1, t.2.1, t.2.2]))[3 * k]? = some t.1 ∧
      (ts.flatMap (fun t => [t.1, t.2.1, t.2.2]))[3 * k + 1]? = some t.2.1 ∧
      (ts.flatMap (fun t => [t.1, t.2.1, t.2.2]))[3 * k + 2]? = some t.2.2 := by
  induction ts with
  | nil => intro k t h; simp at h
  | cons t0 ts ih =>
    intro k t h
    cases k with
    | zero =>
      simp only [List.getElem?_cons_zero, Option.some.injEq] at h
      subst h
      simp
    | succ k =>
      simp only [List.getElem?_cons_succ] at h
      have := ih k t h
      have e0 : 3 * (k + 1) = (3 * k) + 1 + 1 + 1 := by omega
      have e2 : 3 * k + 1 + 1 + 1 + 2 = (3 * k + 2) + 1 + 1 + 1 := by omega
      rw [e0, e2]
      simpa [List.flatMap_cons] using this

theorem vertexRecords_all (rs : List Record) (h : ∀ r ∈ rs, r.isVertex = true) :
    (vertexRecords rs).length = rs.length ∧ rs.flatMap Record.faceData = [] ∧
      rs.flatMap Record.normalData = [] := by
  induction rs with
  | nil => simp [vertexRecords]
  | cons r rs ih =>
    have h1 := h r (by simp)
    have h2 := ih (fun r1 hr1 => h r1 (by simp [hr1]))
    cases r with
    | v x y z =>
      simp [vertexRecords, Record.faceData, Record.normalData, h2.1, h2.2.1, h2.2.2]
    | f a na b nb c nc => simp [Record.isVertex] at h1
    | other ws => simp [Record.isVertex] at h1

theorem flatMap_data_length (rs : List Record) :
    (rs.flatMap Record.vertexData).length % 3 = 0 ∧
    (rs.flatMap Record.faceData).length % 3 = 0 ∧
    (rs.flatMap Record.faceData).length = (rs.flatMap Record.normalData).length := by
  induction rs with
  | nil => simp
  | cons r rs ih =>
    cases r <;>
      simp only [List.flatMap_cons, List.length_append, Record.vertexData, Record.faceData,
        Record.normalData, List.length_cons, List.length_nil] <;> omega

/-! ## The claims -/

/-- C1: on a well-formed file (lines in the layout of the format description,
words shorter than the 256 bytes of `lineType`) whose face records
`f a//na b//nb c//nc` have vertex indices in 1..256 and normal indices in
0..255, `loadObj` returns an object whose `faceList` is, record after record in
file order, the triple `c-1, b-1, a-1`, and whose `normalList` is the triple
`nc, nb, na`. -/
theorem loadObj_faces_reversed (sep : String) (fopen : String → Option (List Char))
    (u : Uninit) (objFile : String) (foo : SDL_Colour) (posX posY rotZ : GLfloat)
    (rs : List Record) (hwf : ∀ r ∈ rs, r.WF) (hrange : ∀ r ∈ rs, r.InRange)
    (hopen : fopen (fileName sep objFile) = some (renderFile rs)) :
    ∃ g out, loadObj sep fopen u objFile foo posX posY rotZ = Run.returns (g, out) ∧
      g.faceList = rs.flatMap Record.faceTriple ∧
      g.normalList = rs.flatMap Record.normalTriple := by
  obtain ⟨g, hg, _, hf, hn⟩ :=
    loadObj_renderFile sep fopen u objFile foo posX posY rotZ rs hwf hopen
  have hc := flatMap_faceData_inRange rs hrange
  exact ⟨g, _, hg, by rw [hf]; exact hc.1, by rw [hn]; exact hc.2⟩

/-- C1, at the triangle of the round-trip property: the file of the vertices
(0,0,0), (1,0,0), (0,1,0) and the record `f 1//1 2//2 3//3` gives the face
indices 2, 1, 0 and the normal indices 3, 2, 1. -/
theorem loadObj_faces_reversed_witness :
    (∀ r ∈ triangle, r.WF) ∧ (∀ r ∈ triangle, r.InRange) ∧
    ∃ g out, loadObj "/" (oneFile "v 0 0 0\nv 1 0 0\nv 0 1 0\nf 1//1 2//2 3//3\n") someUninit
        "triangle.obj" grey GLfloat.zero GLfloat.zero GLfloat.zero = Run.returns (g, out) ∧
      g.faceList = [2, 1, 0] ∧ g.normalList = [3, 2, 1] :=
  ⟨by decide, by decide,
    loadObj_faces_reversed "/" (oneFile "v 0 0 0\nv 1 0 0\nv 0 1 0\nf 1//1 2//2 3//3\n")
      someUninit "triangle.obj" grey GLfloat.zero GLfloat.zero GLfloat.zero triangle
      (by decide) (by decide) rfl⟩

/-- C2: on a well-formed file (lines in the layout of the format description,
words shorter than the 256 bytes of `lineType`, indices that are `int`
values) the `vertexList` returned by `loadObj` is the concatenation, in file
order, of the components of the `v` records: `n` records give `3n` entries,
the `k`-th record sits at the positions `3k`, `3k+1`, `3k+2`; a file of `v`
records only gives three entries per record and empty `faceList` and
`normalList`. -/
theorem loadObj_vertices_in_file_order (sep : String) (fopen : String → Option (List Char))
    (u : Uninit) (objFile : String) (foo : SDL_Colour) (posX posY rotZ : GLfloat)
    (rs : List Record) (hwf : ∀ r ∈ rs, r.WF)
    (hopen : fopen (fileName sep objFile) = some (renderFile rs)) :
    ∃ g out, loadObj sep fopen u objFile foo posX posY rotZ = Run.returns (g, out) ∧
      g.vertexList = (vertexRecords rs).flatMap (fun t => [t.1, t.2.1, t.2.2]) ∧
      g.vertexList.length = 3 * (vertexRecords rs).length ∧
      (∀ (k : Nat) (t : GLfloat × GLfloat × GLfloat), (vertexRecords rs)[k]? = some t →
        g.vertexList[3 * k]? = some t.1 ∧ g.vertexList[3 * k + 1]? = some t.2.1 ∧
        g.vertexList[3 * k + 2]? = some t.2.2) ∧
      ((∀ r ∈ rs, r.isVertex = true) →
        g.vertexList.length = 3 * rs.length ∧ g.faceList = [] ∧ g.normalList = []) := by
  obtain ⟨g, hg, hv, hf, hn⟩ :=
    loadObj_renderFile sep fopen u objFile foo posX posY rotZ rs hwf hopen
  rw [flatMap_vertexData] at hv
  refine ⟨g, _, hg, hv, ?_, ?_, ?_⟩
  · rw [hv, flatMap_triple_length]
  · intro k t hk
    rw [hv]
    exact flatMap_triple_get _ k t hk
  · intro hall
    obtain ⟨h1, h2, h3⟩ := vertexRecords_all rs hall
    rw [hv, flatMap_triple_length, h1, hf, hn, h2, h3]
    exact ⟨rfl, rfl, rfl⟩

/-- C2, at the file of the three `v` records of the triangle. -/
theorem loadObj_vertices_in_file_order_witness :
    (∀ r ∈ triangle.take 3, r.WF) ∧
    ∃ g out, loadObj "/" (oneFile "v 0 0 0\nv 1 0 0\nv 0 1 0\n") someUninit
        "points.obj" grey GLfloat.zero GLfloat.zero GLfloat.zero = Run.returns (g, out) ∧
      g.vertexList = [GLfloat.ofNat 0, GLfloat.ofNat 0, GLfloat.ofNat 0, GLfloat.ofNat 1,
        GLfloat.ofNat 0, GLfloat.ofNat 0, GLfloat.ofNat 0, GLfloat.ofNat 1, GLfloat.ofNat 0] ∧
      g.vertexList.length = 9 ∧ g.faceList = [] ∧ g.normalList = [] := by
  obtain ⟨g, out, h, hv, hl, _, hall⟩ :=
    loadObj_vertices_in_file_order "/" (oneFile "v 0 0 0\nv 1 0 0\nv 0 1 0\n") someUninit
      "points.obj" grey GLfloat.zero GLfloat.zero GLfloat.zero (triangle.take 3)
      (by decide) rfl
  exact ⟨by decide, g, out, h, hv, hl, (hall (by decide)).2⟩

/-- C3: on a well-formed file (lines in the layout of the format description,
words shorter than the 256 bytes of `lineType`, indices that are `int`
values) the object returned by `loadObj` has a `vertexList` and a `faceList`
whose lengths are multiples of 3, and a `normalList` as long as the
`faceList`. -/
theorem loadObj_lengths (sep : String) (fopen : String → Option (List Char))
    (u : Uninit) (objFile : String) (foo : SDL_Colour) (posX posY rotZ : GLfloat)
    (rs : List Record) (hwf : ∀ r ∈ rs, r.WF)
    (hopen : fopen (fileName sep objFile) = some (renderFile rs)) :
    ∃ g out, loadObj sep fopen u objFile foo posX posY rotZ = Run.returns (g, out) ∧
      g.vertexList.length % 3 = 0 ∧ g.faceList.length % 3 = 0 ∧
      g.faceList.length = g.normalList.length := by
  obtain ⟨g, hg, hv, hf, hn⟩ :=
    loadObj_renderFile sep fopen u objFile foo posX posY rotZ rs hwf hopen
  have hl := flatMap_data_length rs
  exact ⟨g, _, hg, by rw [hv]; exact hl.1, by rw [hf]; exact hl.2.1, by rw [hf, hn]; exact hl.2.2⟩

/-- C3, at the triangle file with a comment, an object name, a normal, an
empty line and a smoothing flag around the records: nine vertex components,
three face indices, three normal indices. -/
theorem loadObj_lengths_witness :
    (∀ r ∈ exportedTriangle, r.WF) ∧
    ∃ g out, loadObj "/"
        (oneFile ("# triangle\no Tri\nv 0 0 0\nv 1 0 0\nv 0 1 0\n" ++
          "vn 0 0 1\n\ns off\nf 1//1 2//2 3//3\n")) otherUninit
        "triangle.obj" grey GLfloat.zero GLfloat.zero GLfloat.zero = Run.returns (g, out) ∧
      g.vertexList.length % 3 = 0 ∧ g.faceList.length % 3 = 0 ∧
      g.faceList.length = g.normalList.length :=
  ⟨by decide,
    loadObj_lengths "/"
      (oneFile ("# triangle\no Tri\nv 0 0 0\nv 1 0 0\nv 0 1 0\n" ++
        "vn 0 0 1\n\ns off\nf 1//1 2//2 3//3\n")) otherUninit
      "triangle.obj" grey GLfloat.zero GLfloat.zero GLfloat.zero exportedTriangle
      (by decide) (by decide)⟩

/-- C4: when the file cannot be opened `loadObj` returns an object whose
`vertexList`, `faceList` and `normalList` are empty and whose name, position,
rotation and colour are the arguments of the call; it prints that the file
could not be opened. -/
theorem loadObj_unopenable (sep : String) (fopen : String → Option (List Char))
    (u : Uninit) (objFile : String) (foo : SDL_Colour) (posX posY rotZ : GLfloat)
    (hopen : fopen (fileName sep objFile) = none) :
    ∃ g, loadObj sep fopen u objFile foo posX posY rotZ =
        Run.returns (g, [Msg.couldntOpen (fileName sep objFile)]) ∧
      g.vertexList = [] ∧ g.faceList = [] ∧ g.normalList = [] ∧
      g.name = objFile ∧ g.x = posX ∧ g.y = posY ∧ g.rz = rotZ ∧
      g.colour.r = foo.r ∧ g.colour.g = foo.g ∧ g.colour.b = foo.b := by
  refine ⟨initObject u objFile foo posX posY rotZ, ?_, rfl, rfl, rfl, rfl, rfl, rfl, rfl,
    rfl, rfl, rfl⟩
  unfold loadObj
  simp only [hopen]

/-- C4, at a file system without files. -/
theorem loadObj_unopenable_witness :
    noFile (fileName "/" "ground.obj") = none ∧
    ∃ g, loadObj "/" noFile someUninit "ground.obj" grey GLfloat.zero (GLfloat.ofNat 5)
        GLfloat.zero = Run.returns (g, [Msg.couldntOpen (fileName "/" "ground.obj")]) ∧
      g.vertexList = [] ∧ g.faceList = [] ∧ g.normalList = [] ∧
      g.name = "ground.obj" ∧ g.x = GLfloat.zero ∧ g.y = GLfloat.ofNat 5 ∧
      g.rz = GLfloat.zero ∧ g.colour.r = 128 ∧ g.colour.g = 128 ∧ g.colour.b = 128 :=
  ⟨rfl, loadObj_unopenable "/" noFile someUninit "ground.obj" grey GLfloat.zero
    (GLfloat.ofNat 5) GLfloat.zero rfl⟩

/-- C5: in a file made of well-formed records, then an `f` tag whose six
integer pattern does not match in full (the integers that do match being
`int` values), then anything at all, the scan stops at that face record: the
`vertexList` returned is the vertex data of the records before it, and
`faceList` and `normalList` hold the data of the records before it and one
more triple; nothing after the malformed record adds an entry. -/
theorem loadObj_stops_at_bad_face (sep : String) (fopen : String → Option (List Char))
    (u : Uninit) (objFile : String) (foo : SDL_Colour) (posX posY rotZ : GLfloat)
    (rs : List Record) (tail : List Char) (hwf : ∀ r ∈ rs, r.WF)
    (htail : ∀ c ∈ tail.head?, isSpace c = true)
    (hint : (fscanf fmtFace tail).undefined = false)
    (hbad : (fscanf fmtFace tail).ret ≠ 6)
    (hopen : fopen (fileName sep objFile) = some (renderOnto rs ('f' :: tail))) :
    ∃ g out fs ns, loadObj sep fopen u objFile foo posX posY rotZ = Run.returns (g, out) ∧
      g.vertexList = rs.flatMap Record.vertexData ∧
      g.faceList = rs.flatMap Record.faceData ++ fs ∧ fs.length = 3 ∧
      g.normalList = rs.flatMap Record.normalData ++ ns ∧ ns.length = 3 := by
  rw [loadObj_renderOnto sep fopen u objFile foo posX posY rotZ rs ('f' :: tail) hwf hopen]
  obtain ⟨h1, h2, h3, _⟩ := applyRecords_fields rs
    (initScan (initObject u objFile foo posX posY rotZ) (fileName sep objFile) [])
  have hb := loopBody_badFace u
    { applyRecords (initScan (initObject u objFile foo posX posY rotZ)
        (fileName sep objFile) []) rs with currentFile := 'f' :: tail } tail rfl htail hint hbad
  simp only [scanLoop, hb, Run.map]
  refine ⟨_, _,
    [indexByte (argUInt (fscanf fmtFace tail).args 4 u.faceDefs2),
      indexByte (argUInt (fscanf fmtFace tail).args 2 u.faceDefs1),
      indexByte (argUInt (fscanf fmtFace tail).args 0 u.faceDefs0)],
    [normalByte (argUInt (fscanf fmtFace tail).args 5 u.normalDefs2),
      normalByte (argUInt (fscanf fmtFace tail).args 3 u.normalDefs1),
      normalByte (argUInt (fscanf fmtFace tail).args 1 u.normalDefs0)],
    rfl, ?_, ?_, rfl, ?_, rfl⟩
  · simpa [badFaceStop, pushFace, initScan, initObject] using h1
  · simp only [badFaceStop, pushFace, h2]
    simp [initScan, initObject]
  · simp only [badFaceStop, pushFace, h3]
    simp [initScan, initObject]

/-- C5, at the file `v 0 0 0`, `f 1//1 2//2`, `v 1 1 1`, `f 1//1 1//1 1//1`:
the vertex and the face after the malformed record are not read. -/
theorem loadObj_stops_at_bad_face_witness :
    (∀ r ∈ triangle.take 1, r.WF) ∧
    (fscanf fmtFace " 1//1 2//2\nv 1 1 1\nf 1//1 1//1 1//1\n".toList).undefined = false ∧
    (fscanf fmtFace " 1//1 2//2\nv 1 1 1\nf 1//1 1//1 1//1\n".toList).ret ≠ 6 ∧
    ∃ g out fs ns, loadObj "/"
        (oneFile "v 0 0 0\nf 1//1 2//2\nv 1 1 1\nf 1//1 1//1 1//1\n") someUninit
        "bad.obj" grey GLfloat.zero GLfloat.zero GLfloat.zero = Run.returns (g, out) ∧
      g.vertexList = [GLfloat.ofNat 0, GLfloat.ofNat 0, GLfloat.ofNat 0] ∧
      g.faceList = [] ++ fs ∧ fs.length = 3 ∧ g.normalList = [] ++ ns ∧ ns.length = 3 :=
  ⟨by decide, by decide, by decide,
    loadObj_stops_at_bad_face "/"
      (oneFile "v 0 0 0\nf 1//1 2//2\nv 1 1 1\nf 1//1 1//1 1//1\n") someUninit "bad.obj" grey
      GLfloat.zero GLfloat.zero GLfloat.zero (triangle.take 1)
      " 1//1 2//2\nv 1 1 1\nf 1//1 1//1 1//1\n".toList (by decide) (by decide) (by decide)
      (by decide) rfl⟩

/-- C6: the code at the file of the lines `# v 1 2 3` and `v 0 0 0`. The
leading token `#` of the first line is neither `v` nor `f`, yet the line is
not ignored: the loop goes on word by word, meets the `v` inside the line and
stores 1, 2, 3 as a vertex. The file yields six entries of `vertexList`, the
file without that line three. -/
theorem loadObj_junk_line_not_ignored :
    ∃ g1 out1 g2 out2,
      loadObj "/" (oneFile "# v 1 2 3\nv 0 0 0\n") someUninit "a.obj" grey GLfloat.zero
        GLfloat.zero GLfloat.zero = Run.returns (g1, out1) ∧
      loadObj "/" (oneFile "v 0 0 0\n") someUninit "a.obj" grey GLfloat.zero
        GLfloat.zero GLfloat.zero = Run.returns (g2, out2) ∧
      g1.vertexList = [GLfloat.ofNat 1, GLfloat.ofNat 2, GLfloat.ofNat 3, GLfloat.ofNat 0,
        GLfloat.ofNat 0, GLfloat.ofNat 0] ∧
      g2.vertexList = [GLfloat.ofNat 0, GLfloat.ofNat 0, GLfloat.ofNat 0] ∧
      g1.vertexList ≠ g2.vertexList :=
  ⟨_, _, _, _, rfl, rfl, by decide, by decide, by decide⟩

/-- C7: two runs of `loadObj` on the same well-formed file content (lines in
the layout of the format description, words shorter than the 256 bytes of
`lineType`, indices that are `int` values) return objects with the same
`vertexList`, `faceList` and `normalList`, whatever the other arguments of the
two calls, the path separator, the rest of the file system and the content of
uninitialised memory are. -/
theorem loadObj_deterministic (sep1 sep2 : String)
    (fopen1 fopen2 : String → Option (List Char)) (u1 u2 : Uninit)
    (objFile1 objFile2 : String) (foo1 foo2 : SDL_Colour)
    (posX1 posY1 rotZ1 posX2 posY2 rotZ2 : GLfloat)
    (rs : List Record) (hwf : ∀ r ∈ rs, r.WF)
    (hopen1 : fopen1 (fileName sep1 objFile1) = some (renderFile rs))
    (hopen2 : fopen2 (fileName sep2 objFile2) = some (renderFile rs)) :
    ∃ g1 out1 g2 out2,
      loadObj sep1 fopen1 u1 objFile1 foo1 posX1 posY1 rotZ1 = Run.returns (g1, out1) ∧
      loadObj sep2 fopen2 u2 objFile2 foo2 posX2 posY2 rotZ2 = Run.returns (g2, out2) ∧
      g1.vertexList = g2.vertexList ∧ g1.faceList = g2.faceList ∧
      g1.normalList = g2.normalList := by
  obtain ⟨g1, hg1, hv1, hf1, hn1⟩ :=
    loadObj_renderFile sep1 fopen1 u1 objFile1 foo1 posX1 posY1 rotZ1 rs hwf hopen1
  obtain ⟨g2, hg2, hv2, hf2, hn2⟩ :=
    loadObj_renderFile sep2 fopen2 u2 objFile2 foo2 posX2 posY2 rotZ2 rs hwf hopen2
  exact ⟨g1, _, g2, _, hg1, hg2, hv1.trans hv2.symm, hf1.trans hf2.symm, hn1.trans hn2.symm⟩

/-- C7, at two loads of the triangle file under different names, colours,
positions and uninitialised memory. -/
theorem loadObj_deterministic_witness :
    (∀ r ∈ triangle, r.WF) ∧
    ∃ g1 out1 g2 out2,
      loadObj "/" (oneFile "v 0 0 0\nv 1 0 0\nv 0 1 0\nf 1//1 2//2 3//3\n") someUninit
        "one.obj" grey GLfloat.zero GLfloat.zero GLfloat.zero = Run.returns (g1, out1) ∧
      loadObj "\\" (oneFile "v 0 0 0\nv 1 0 0\nv 0 1 0\nf 1//1 2//2 3//3\n") otherUninit
        "two.obj" ⟨60, 128, 60, 0⟩ (GLfloat.ofNat 10) (GLfloat.ofNat 100) GLfloat.zero =
        Run.returns (g2, out2) ∧
      g1.vertexList = g2.vertexList ∧ g1.faceList = g2.faceList ∧
      g1.normalList = g2.normalList :=
  ⟨by decide,
    loadObj_deterministic "/" "\\"
      (oneFile "v 0 0 0\nv 1 0 0\nv 0 1 0\nf 1//1 2//2 3//3\n")
      (oneFile "v 0 0 0\nv 1 0 0\nv 0 1 0\nf 1//1 2//2 3//3\n") someUninit otherUninit
      "one.obj" "two.obj" grey ⟨60, 128, 60, 0⟩ GLfloat.zero GLfloat.zero GLfloat.zero
      (GLfloat.ofNat 10) (GLfloat.ofNat 100) GLfloat.zero triangle (by decide) rfl rfl⟩

/-- C9: an index outside the range of a byte is not detected. On a well-formed
file (lines in the layout of the format description, words shorter than the
256 bytes of `lineType`), whose face records carry any `int` values as vertex
indices `v` and normal indices `n`, `loadObj` stores `(v - 1) mod 256` in `faceList` and
`n mod 256` in `normalList` for every face record, prints nothing but the
line that announces the file, and reads every record of the file. -/
theorem loadObj_index_wraps (sep : String) (fopen : String → Option (List Char))
    (u : Uninit) (objFile : String) (foo : SDL_Colour) (posX posY rotZ : GLfloat)
    (rs : List Record) (hwf : ∀ r ∈ rs, r.WF)
    (hopen : fopen (fileName sep objFile) = some (renderFile rs)) :
    ∃ g, loadObj sep fopen u objFile foo posX posY rotZ =
        Run.returns (g, [Msg.attempting (fileName sep objFile)]) ∧
      g.faceList = rs.flatMap Record.faceData ∧
      g.normalList = rs.flatMap Record.normalData ∧
      g.vertexList = rs.flatMap Record.vertexData := by
  obtain ⟨g, hg, hv, hf, hn⟩ :=
    loadObj_renderFile sep fopen u objFile foo posX posY rotZ rs hwf hopen
  exact ⟨g, hg, hf, hn, hv⟩

/-- C9, at a file of three records: a face with the vertex indices 0, 257,
1000 and the normal indices 300, minus one, 70000, then `v 1 2 3`, then
`f 1//1 2//2 3//3`. The indices 0, 257 and 1000 are stored as 255, 0 and 231,
the normals as 44, 255 and 112, and the records that follow are read. -/
theorem loadObj_index_wraps_witness :
    (∀ r ∈ wrappingFaces, r.WF) ∧
    ∃ g, loadObj "/" (oneFile "f 0//300 257//-1 1000//70000\nv 1 2 3\nf 1//1 2//2 3//3\n")
        someUninit "w.obj" grey GLfloat.zero GLfloat.zero GLfloat.zero =
        Run.returns (g, [Msg.attempting (fileName "/" "w.obj")]) ∧
      g.faceList = [231, 0, 255, 2, 1, 0] ∧
      g.normalList = [112, 255, 44, 3, 2, 1] ∧
      g.vertexList = [GLfloat.ofNat 1, GLfloat.ofNat 2, GLfloat.ofNat 3] :=
  ⟨by decide,
    loadObj_index_wraps "/"
      (oneFile "f 0//300 257//-1 1000//70000\nv 1 2 3\nf 1//1 2//2 3//3\n")
      someUninit "w.obj" grey GLfloat.zero GLfloat.zero GLfloat.zero wrappingFaces
      (by decide) rfl⟩

/-- C10 fails as stated: the well-formed file `v 0 0 0`, `f 1//1 2//2 3//3`
has one vertex, and `loadObj` stores the indices 2, 1, 0, of which 2 and 1
are not below the number of vertices. -/
theorem loadObj_face_index_dangling :
    (∀ r ∈ danglingFace, r.WF) ∧ (∀ r ∈ danglingFace, r.InRange) ∧
    renderFile danglingFace = "v 0 0 0\nf 1//1 2//2 3//3\n".toList ∧
    ∃ g out, loadObj "/" (oneFile "v 0 0 0\nf 1//1 2//2 3//3\n") someUninit "d.obj" grey
        GLfloat.zero GLfloat.zero GLfloat.zero = Run.returns (g, out) ∧
      g.vertexList.length / 3 = 1 ∧ g.faceList = [2, 1, 0] ∧
      ¬ (∀ i ∈ g.faceList, i < g.vertexList.length / 3) :=
  ⟨by decide, by decide, rfl, _, _, rfl, by decide, by decide, by decide⟩

theorem faceData_lt (n : Nat) (r : Record) (h : r.RefersTo n) : ∀ i ∈ r.faceData, i < n := by
  cases r with
  | v x y z => simp [Record.faceData]
  | other ws => simp [Record.faceData]
  | f a na b nb c nc =>
    have ha := h a (by simp)
    have hb := h b (by simp)
    have hc := h c (by simp)
    intro i hi
    simp only [Record.faceData, List.mem_cons, List.mem_singleton, List.not_mem_nil,
      or_false] at hi
    omega

/-- C10 as amended: on a well-formed file in which every vertex index of a
face record is at least 1 and at most the number of `v` records of the file,
every entry `i` of the `faceList` returned by `loadObj` satisfies
`i < vertexList.length / 3`. -/
theorem loadObj_face_index_in_range (sep : String) (fopen : String → Option (List Char))
    (u : Uninit) (objFile : String) (foo : SDL_Colour) (posX posY rotZ : GLfloat)
    (rs : List Record) (hwf : ∀ r ∈ rs, r.WF)
    (href : ∀ r ∈ rs, r.RefersTo (vertexRecords rs).length)
    (hopen : fopen (fileName sep objFile) = some (renderFile rs)) :
    ∃ g out, loadObj sep fopen u objFile foo posX posY rotZ = Run.returns (g, out) ∧
      ∀ i ∈ g.faceList, i < g.vertexList.length / 3 := by
  obtain ⟨g, hg, hv, hf, _⟩ :=
    loadObj_renderFile sep fopen u objFile foo posX posY rotZ rs hwf hopen
  refine ⟨g, _, hg, ?_⟩
  intro i hi
  rw [hv, flatMap_vertexData, flatMap_triple_length]
  rw [hf, List.mem_flatMap] at hi
  obtain ⟨r, hr, hir⟩ := hi
  have := faceData_lt _ r (href r hr) i hir
  omega

/-- C10 as amended, at the triangle file: three vertices, and the indices
2, 1, 0. -/
theorem loadObj_face_index_in_range_witness :
    (∀ r ∈ triangle, r.WF) ∧ (∀ r ∈ triangle, r.RefersTo (vertexRecords triangle).length) ∧
    ∃ g out, loadObj "/" (oneFile "v 0 0 0\nv 1 0 0\nv 0 1 0\nf 1//1 2//2 3//3\n") someUninit
        "triangle.obj" grey GLfloat.zero GLfloat.zero GLfloat.zero = Run.returns (g, out) ∧
      ∀ i ∈ g.faceList, i < g.vertexList.length / 3 :=
  ⟨by decide, by decide,
    loadObj_face_index_in_range "/"
      (oneFile "v 0 0 0\nv 1 0 0\nv 0 1 0\nf 1//1 2//2 3//3\n") someUninit "triangle.obj"
      grey GLfloat.zero GLfloat.zero GLfloat.zero triangle (by decide) (by decide) rfl⟩

/-! ## Termination, the frame and the length invariant -/

theorem loopBody_lengths (u : Uninit) (st : Scan) (h : st.newObject.LengthsOk) :
    ∀ st1 ∈ (loopBody u st).scan, st1.newObject.LengthsOk := by
  obtain ⟨h1, h2, h3⟩ := h
  unfold loopBody
  simp only []
  split_ifs <;>
    simp only [Step.scan, GameObject.LengthsOk, pushFace, List.length_append, List.length_cons,
      List.length_nil, Option.mem_def, Option.some.injEq, forall_eq', reduceCtorEq,
      false_implies, implies_true] <;> omega

theorem scanLoop_lengths (u : Uninit) :
    ∀ (n : Nat) (st r : Scan), scanLoop u n st = Run.returns r → st.newObject.LengthsOk →
      r.newObject.LengthsOk := by
  intro n
  induction n with
  | zero => intro st r h; simp [scanLoop] at h
  | succ n ih =>
    intro st r h hst
    have hl := loopBody_lengths u st hst
    simp only [scanLoop] at h
    cases hb : loopBody u st with
    | stop st1 =>
      rw [hb] at h hl
      simp only [Run.returns.injEq] at h
      subst h
      exact hl st1 (by simp [Step.scan])
    | undefined =>
      rw [hb] at h
      exact Run.noConfusion h
    | next st1 =>
      rw [hb] at h hl
      exact ih st1 r h (hl st1 (by simp [Step.scan]))

/-- The fuel that `loadObj` gives the loop is never used up: the run ends in a
`break`, or in undefined behaviour. -/
theorem loadObj_total (sep : String) (fopen : String → Option (List Char)) (u : Uninit)
    (objFile : String) (foo : SDL_Colour) (posX posY rotZ : GLfloat) :
    loadObj sep fopen u objFile foo posX posY rotZ ≠ Run.outOfFuel := by
  unfold loadObj
  cases fopen (fileName sep objFile) with
  | none => exact fun h => Run.noConfusion h
  | some content =>
    have ht := scanLoop_total u (content.length + 1)
      (initScan (initObject u objFile foo posX posY rotZ) (fileName sep objFile) content)
      (by simp [initScan])
    simp only []
    cases hr : scanLoop u (content.length + 1)
      (initScan (initObject u objFile foo posX posY rotZ) (fileName sep objFile) content) with
    | returns r => exact fun h => Run.noConfusion h
    | undefined => exact fun h => Run.noConfusion h
    | outOfFuel => exact absurd hr ht

/-- On every content on which its behaviour is defined, `loadObj` returns, the
object has the name, position, rotation and colour channels of the call, and
the lengths of its lists fit triangles. -/
theorem loadObj_defined (sep : String) (fopen : String → Option (List Char)) (u : Uninit)
    (objFile : String) (foo : SDL_Colour) (posX posY rotZ : GLfloat)
    (hdef : loadObj sep fopen u objFile foo posX posY rotZ ≠ Run.undefined) :
    ∃ g out, loadObj sep fopen u objFile foo posX posY rotZ = Run.returns (g, out) ∧
      (g.name = objFile ∧ g.x = posX ∧ g.y = posY ∧ g.rz = rotZ ∧
        g.colour.r = foo.r ∧ g.colour.g = foo.g ∧ g.colour.b = foo.b) ∧
      g.LengthsOk := by
  unfold loadObj at hdef ⊢
  cases hopen : fopen (fileName sep objFile) with
  | none => exact ⟨_, _, rfl, ⟨rfl, rfl, rfl, rfl, rfl, rfl, rfl⟩, rfl, rfl, rfl⟩
  | some content =>
    rw [hopen] at hdef
    simp only [] at hdef ⊢
    have ht := scanLoop_total u (content.length + 1)
      (initScan (initObject u objFile foo posX posY rotZ) (fileName sep objFile) content)
      (by simp [initScan])
    cases hr : scanLoop u (content.length + 1)
      (initScan (initObject u objFile foo posX posY rotZ) (fileName sep objFile) content) with
    | undefined => rw [hr] at hdef; exact absurd rfl hdef
    | outOfFuel => exact absurd hr ht
    | returns r =>
      obtain ⟨h1, h2, h3, h4, h5⟩ := scanLoop_frame u _ _ r hr
      have hl := scanLoop_lengths u _ _ r hr ⟨rfl, rfl, rfl⟩
      refine ⟨r.newObject, r.out, rfl, ⟨h1, h2, h3, h4, ?_, ?_, ?_⟩, hl⟩ <;> rw [h5] <;> rfl

/-- With only white space left where a tag is expected the iteration breaks,
and the object and the lines printed are what they were. -/
theorem loopBody_atEnd (u : Uninit) (st : Scan) (hst : skipWs st.currentFile = []) :
    loopBody u st = Step.stop { st with currentFile := [] } := by
  have h1 := loopBody_skipWs u st st.currentFile
  rw [hst, loopBody_eof] at h1
  exact h1.symm

/-! ## A word that overruns the buffer of the tag -/

set_option maxRecDepth 100000

theorem fscanf_fmtTag_longWord (w : List Char) (hw : ∀ c ∈ w, isSpace c = false)
    (hlen : 256 ≤ w.length) (tail : List Char) (h : ∀ c ∈ tail.head?, isSpace c = true) :
    (fscanf fmtTag (w ++ tail)).undefined = true := by
  have hne : w ≠ [] := by
    intro h0; rw [h0] at hlen; simp at hlen
  obtain ⟨c, cs, rfl⟩ := List.exists_cons_of_ne_nil hne
  have hc : isSpace c = false := hw c (by simp)
  have h1 : skipWs (c :: cs ++ tail) = c :: cs ++ tail := skipWs_cons_of_not_space hc _
  have h2 := scanWord_word (c :: cs) hw tail h
  simp only [fscanf, fmtTag, fscanfAux, convS, h1]
  simp only [List.cons_append] at h2 ⊢
  simp only [List.length_cons] at hlen
  have hlen1 : ¬ cs.length + 1 < 256 := by omega
  simp [h2, hlen1]

theorem loopBody_longWord (u : Uninit) (st : Scan) (w : List Char)
    (hw : ∀ c ∈ w, isSpace c = false) (hlen : 256 ≤ w.length) (tail : List Char)
    (h : ∀ c ∈ tail.head?, isSpace c = true) (hfile : st.currentFile = w ++ tail) :
    loopBody u st = Step.undefined := by
  simp [loopBody, hfile, fscanf_fmtTag_longWord w hw hlen tail h]

/-- C8: the code at the file of the record `v 1 2 3` and a comment line that
is a rule of 1000 dashes, `#---...`. The rule is read as a tag into the 256
bytes of `lineType`, which it overruns: the behaviour is undefined, and no
object with the name, position, rotation and colour of the call is returned. -/
theorem loadObj_long_comment_no_object :
    loadObj "/" (fileOf longCommentFile) someUninit "ground.obj" grey GLfloat.zero
      GLfloat.zero GLfloat.zero = Run.undefined ∧
    ¬ ∃ g out, loadObj "/" (fileOf longCommentFile) someUninit "ground.obj" grey GLfloat.zero
        GLfloat.zero GLfloat.zero = Run.returns (g, out) ∧
      g.name = "ground.obj" ∧ g.x = GLfloat.zero ∧ g.y = GLfloat.zero ∧ g.rz = GLfloat.zero ∧
      g.colour.r = grey.r ∧ g.colour.g = grey.g ∧ g.colour.b = grey.b :=
  ⟨rfl, fun ⟨_, _, h, _⟩ => Run.noConfusion h⟩

/-- C11: the code at the file of the line `mtllib` with a path of 1000 letters.
The first iteration reads `mtllib` and goes on; the second reads the path as
a tag into the 256 bytes of `lineType`, which it overruns: the behaviour is
undefined there, and however many iterations are allowed the loop does not
reach its `break`. -/
theorem scanLoop_long_path_no_break :
    (∃ st1, loopBody someUninit (initScan (initObject someUninit "ground.obj" grey GLfloat.zero
        GLfloat.zero GLfloat.zero) "ground.obj" longPathFile) = Step.next st1 ∧
      loopBody someUninit st1 = Step.undefined) ∧
    (∀ n, scanLoop someUninit (n + 2) (initScan (initObject someUninit "ground.obj" grey
      GLfloat.zero GLfloat.zero GLfloat.zero) "ground.obj" longPathFile) = Run.undefined) ∧
    loadObj "/" (fileOf longPathFile) someUninit "ground.obj" grey GLfloat.zero
      GLfloat.zero GLfloat.zero = Run.undefined :=
  ⟨⟨_, rfl, rfl⟩, fun _ => rfl, rfl⟩

/-- C18: the code at the file of the record `f 1//1 2//2 3//3` and the line
`o` with an object name of 1000 letters. The name is read as a tag into the
256 bytes of `lineType`, which it overruns: the behaviour is undefined, and no
object whose lists have the lengths of triangles is returned. -/
theorem loadObj_long_name_no_mesh :
    loadObj "/" (fileOf longNameFile) someUninit "ground.obj" grey GLfloat.zero
      GLfloat.zero GLfloat.zero = Run.undefined ∧
    ¬ ∃ g out, loadObj "/" (fileOf longNameFile) someUninit "ground.obj" grey GLfloat.zero
        GLfloat.zero GLfloat.zero = Run.returns (g, out) ∧
      g.vertexList.length % 3 = 0 ∧ g.faceList.length % 3 = 0 ∧
      g.faceList.length = g.normalList.length :=
  ⟨rfl, fun ⟨_, _, h, _⟩ => Run.noConfusion h⟩

/-! ## What a face scan that stops early leaves behind -/

theorem convD_isInt {s rest : List Char} {v : Int} (h : convD s = Conv.ok v rest) :
    IsInt v := by
  unfold convD at h
  cases hs : skipWs s with
  | nil => simp [hs] at h
  | cons c cs =>
    rw [hs] at h
    simp only [] at h
    by_cases h1 : (scanDigits (scanSign (c :: cs)).2).1 = []
    · simp [h1] at h
    · by_cases h2 : IsInt (if (scanSign (c :: cs)).1
          then -(digitsVal (scanDigits (scanSign (c :: cs)).2).1 : Int)
          else (digitsVal (scanDigits (scanSign (c :: cs)).2).1 : Int))
      · simp only [h1, h2, if_true, if_false, Conv.ok.injEq] at h
        rw [← h.1]
        exact h2
      · simp [h1, h2] at h

theorem fscanfAux_ints (ds : List Directive) (hds : ∀ dir ∈ ds, dir.isIntOnly = true) :
    ∀ (inp : List Char) (vs : List Int), ∃ ws : List Int,
      (fscanfAux ds inp (vs.map Arg.int)).args = (vs ++ ws).map Arg.int ∧
      ws.length ≤ ds.count Directive.d ∧
      ((fscanfAux ds inp (vs.map Arg.int)).ret = ((vs ++ ws).length : Int) ∨
        ((fscanfAux ds inp (vs.map Arg.int)).ret = EOF ∧ vs ++ ws = [])) ∧
      ∀ v ∈ ws, IsInt v := by
  induction ds with
  | nil => intro inp vs; exact ⟨[], by simp [fscanfAux]⟩
  | cons dir ds ih =>
    intro inp vs
    have hds1 : ∀ d1 ∈ ds, d1.isIntOnly = true := fun d1 h1 => hds d1 (by simp [h1])
    have hfail : ∃ ws : List Int,
        (inputFailure (vs.map Arg.int)).args = (vs ++ ws).map Arg.int ∧
        ws.length ≤ (dir :: ds).count Directive.d ∧
        ((inputFailure (vs.map Arg.int)).ret = ((vs ++ ws).length : Int) ∨
          ((inputFailure (vs.map Arg.int)).ret = EOF ∧ vs ++ ws = [])) ∧
        ∀ v ∈ ws, IsInt v := by
      refine ⟨[], by simp [inputFailure], by simp, ?_, by simp⟩
      cases vs with
      | nil => right; simp [inputFailure]
      | cons v vs => left; simp [inputFailure]
    cases dir with
    | s size => exact absurd (hds (Directive.s size) (by simp)) (by simp [Directive.isIntOnly])
    | f => exact absurd (hds Directive.f (by simp)) (by simp [Directive.isIntOnly])
    | ws =>
      obtain ⟨ws, h1, h2, h3, h4⟩ := ih hds1 (skipWs inp) vs
      refine ⟨ws, by simpa [fscanfAux] using h1, ?_, by simpa [fscanfAux] using h3, h4⟩
      simpa [List.count_cons] using h2
    | lit c =>
      cases inp with
      | nil => simpa [fscanfAux] using hfail
      | cons c1 cs =>
        by_cases hc : c1 = c
        · obtain ⟨ws, h1, h2, h3, h4⟩ := ih hds1 cs vs
          refine ⟨ws, by simpa [fscanfAux, hc] using h1, ?_,
            by simpa [fscanfAux, hc] using h3, h4⟩
          simpa [List.count_cons] using h2
        · exact ⟨[], by simp [fscanfAux, hc]⟩
    | d =>
      cases hcv : convD inp with
      | inputFail => simpa [fscanfAux, hcv] using hfail
      | matchFail rest => exact ⟨[], by simp [fscanfAux, hcv]⟩
      | undefined => exact ⟨[], by simp [fscanfAux, hcv]⟩
      | ok v rest =>
        obtain ⟨ws, h1, h2, h3, h4⟩ := ih hds1 rest (vs ++ [v])
        have e : vs.map Arg.int ++ [Arg.int v] = (vs ++ [v]).map Arg.int := by simp
        refine ⟨v :: ws, ?_, ?_, ?_, ?_⟩
        · simp only [fscanfAux, hcv, e, h1]; simp
        · simp only [List.count_cons, List.length_cons]; simpa using h2
        · simp only [fscanfAux, hcv, e]
          rcases h3 with h3 | h3
          · left; rw [h3]; simp
          · right; exact ⟨h3.1, by simpa using h3.2⟩
        · intro v1 hv1
          rcases List.mem_cons.1 hv1 with h | h
          · rw [h]; exact convD_isInt hcv
          · exact h4 v1 h

theorem fscanf_fmtFace_ints (tail : List Char) :
    ∃ vs : List Int, (fscanf fmtFace tail).args = vs.map Arg.int ∧ vs.length ≤ 6 ∧
      ((fscanf fmtFace tail).ret = (vs.length : Int) ∨
        ((fscanf fmtFace tail).ret = EOF ∧ vs = [])) ∧
      ∀ v ∈ vs, IsInt v := by
  obtain ⟨ws, h1, h2, h3, h4⟩ := fscanfAux_ints fmtFace (by decide) tail []
  refine ⟨ws, by simpa [fscanf] using h1, ?_, by simpa [fscanf] using h3, h4⟩
  have : fmtFace.count Directive.d = 6 := by decide
  omega

theorem argUInt_ints (vs : List Int) (i old : Nat) :
    argUInt (vs.map Arg.int) i old = faceSlot vs i old := by
  simp only [argUInt, faceSlot, List.get?_eq_getElem?, List.getElem?_map]
  cases vs[i]? <;> rfl

theorem map_int_inj (vs ws : List Int) (h : vs.map Arg.int = ws.map Arg.int) : vs = ws :=
  List.map_injective_iff.2 (fun _ _ hab => Arg.int.inj hab) h

/-- C12: at an `f` tag whose scan assigns fewer than six integers `vs`, all
of them `int` values (after any well-formed lines), `loadObj` appends one
triple to `faceList` and one to `normalList` and stops, printing the two lines
of the failure. The integers that were scanned sit in their reversed places,
less one and modulo 256 for the vertex indices and modulo 256 for the normal
indices; the entries the scan did not reach come from what the arrays held
before. -/
theorem loadObj_bad_face_triple (sep : String) (fopen : String → Option (List Char))
    (u : Uninit) (objFile : String) (foo : SDL_Colour) (posX posY rotZ : GLfloat)
    (rs : List Record) (tail : List Char) (hwf : ∀ r ∈ rs, r.WF)
    (htail : ∀ c ∈ tail.head?, isSpace c = true)
    (hint : (fscanf fmtFace tail).undefined = false)
    (hbad : (fscanf fmtFace tail).ret ≠ 6)
    (hopen : fopen (fileName sep objFile) = some (renderOnto rs ('f' :: tail))) :
    ∃ (g : GameObject) (vs : List Int), vs.length < 6 ∧ (∀ v ∈ vs, IsInt v) ∧
      (fscanf fmtFace tail).args = vs.map Arg.int ∧
      loadObj sep fopen u objFile foo posX posY rotZ =
        Run.returns (g, [Msg.attempting (fileName sep objFile), Msg.parserIsBad,
          Msg.faceDefs (fscanf fmtFace tail).ret (faceSlot vs 0 u.faceDefs0)
            (faceSlot vs 2 u.faceDefs1) (faceSlot vs 4 u.faceDefs2)]) ∧
      g.faceList = rs.flatMap Record.faceData ++
        [indexByte (faceSlot vs 4 u.faceDefs2), indexByte (faceSlot vs 2 u.faceDefs1),
          indexByte (faceSlot vs 0 u.faceDefs0)] ∧
      g.normalList = rs.flatMap Record.normalData ++
        [normalByte (faceSlot vs 5 u.normalDefs2), normalByte (faceSlot vs 3 u.normalDefs1),
          normalByte (faceSlot vs 1 u.normalDefs0)] := by
  obtain ⟨vs, hargs, hlen, hret, hvs⟩ := fscanf_fmtFace_ints tail
  have hlt : vs.length < 6 := by
    rcases hret with h | h
    · have : (vs.length : Int) ≠ 6 := fun h6 => hbad (h.trans h6)
      omega
    · rw [h.2]; decide
  rw [loadObj_renderOnto sep fopen u objFile foo posX posY rotZ rs ('f' :: tail) hwf hopen]
  obtain ⟨_, h2, h3, _, _, _, _, _, h9⟩ := applyRecords_fields rs
    (initScan (initObject u objFile foo posX posY rotZ) (fileName sep objFile) [])
  have hb := loopBody_badFace u
    { applyRecords (initScan (initObject u objFile foo posX posY rotZ)
        (fileName sep objFile) []) rs with currentFile := 'f' :: tail } tail rfl htail hint hbad
  simp only [scanLoop, hb, Run.map]
  refine ⟨(badFaceStop u
    { applyRecords (initScan (initObject u objFile foo posX posY rotZ)
        (fileName sep objFile) []) rs with currentFile := 'f' :: tail }
    (fscanf fmtFace tail)).newObject, vs, hlt, hvs, hargs, ?_, ?_, ?_⟩
  · simp only [badFaceStop, h9, hargs, argUInt_ints]
    rfl
  · simp only [badFaceStop, pushFace, h2, hargs, argUInt_ints]
    simp [initScan, initObject]
  · simp only [badFaceStop, pushFace, h3, hargs, argUInt_ints]
    simp [initScan, initObject]

/-- C12, at the file `v 0 0 0`, `f 1//1 2//2`: the scan assigns four integers,
the face triple is `[g, 1, 0]` and the normal triple `[g', 2, 1]`, where `g`
and `g'` come from the third entries of the uninitialised arrays. -/
theorem loadObj_bad_face_triple_witness :
    (∀ r ∈ triangle.take 1, r.WF) ∧
    (fscanf fmtFace " 1//1 2//2\n".toList).undefined = false ∧
    (fscanf fmtFace " 1//1 2//2\n".toList).ret ≠ 6 ∧
    ∃ g : GameObject,
      loadObj "/" (oneFile "v 0 0 0\nf 1//1 2//2\n") someUninit "bad.obj" grey
          GLfloat.zero GLfloat.zero GLfloat.zero =
        Run.returns (g, [Msg.attempting (fileName "/" "bad.obj"), Msg.parserIsBad,
          Msg.faceDefs 4 1 2 someUninit.faceDefs2]) ∧
      g.faceList = [indexByte someUninit.faceDefs2, 1, 0] ∧
      g.normalList = [normalByte someUninit.normalDefs2, 2, 1] := by
  obtain ⟨g, vs, _, _, hargs, hload, hf, hn⟩ :=
    loadObj_bad_face_triple "/" (oneFile "v 0 0 0\nf 1//1 2//2\n") someUninit "bad.obj" grey
      GLfloat.zero GLfloat.zero GLfloat.zero (triangle.take 1) " 1//1 2//2\n".toList
      (by decide) (by decide) (by decide) (by decide) rfl
  have hvs : vs = [1, 1, 2, 2] :=
    map_int_inj vs [1, 1, 2, 2] (hargs.symm.trans (by decide))
  subst hvs
  exact ⟨by decide, by decide, by decide, g, hload, hf, hn⟩

/-! ## A line of other words between two records -/

theorem renderOnto_append (rs1 rs2 : List Record) (rest : List Char) :
    renderOnto (rs1 ++ rs2) rest = renderOnto rs1 (renderOnto rs2 rest) := by
  induction rs1 with
  | nil => rfl
  | cons r rs ih =>
    show r.render (renderOnto (rs ++ rs2) rest) = r.render (renderOnto rs (renderOnto rs2 rest))
    rw [ih]

/-- C13 fails as stated. Between the records of the well-formed file
`v 0 0 0`, `f 1//1 1//1 1//1` put the line of the words `v`-NUL-`x`, `1`,
`2`, `3`: none of them is exactly `v` or `f`, but `strcmp` reads the first as
`v` and the line adds a vertex. And put there a line of one word of 256
letters: storing it overruns the 256 bytes of `lineType`. -/
theorem loadObj_other_line_nul_word :
    (∀ w ∈ [nulWord, word "1", word "2", word "3"], w ≠ ['v'] ∧ w ≠ ['f']) ∧
    (∃ g1 g2 out1 out2,
      loadObj "/" (oneFile "v 0 0 0\nf 1//1 1//1 1//1\n") someUninit "t.obj" grey
        GLfloat.zero GLfloat.zero GLfloat.zero = Run.returns (g1, out1) ∧
      loadObj "/" (fileOf nulLineFile) someUninit "t.obj" grey
        GLfloat.zero GLfloat.zero GLfloat.zero = Run.returns (g2, out2) ∧
      g1.vertexList = [GLfloat.ofNat 0, GLfloat.ofNat 0, GLfloat.ofNat 0] ∧
      g2.vertexList = [GLfloat.ofNat 0, GLfloat.ofNat 0, GLfloat.ofNat 0, GLfloat.ofNat 1,
        GLfloat.ofNat 2, GLfloat.ofNat 3] ∧
      g2.vertexList ≠ g1.vertexList) ∧
    List.replicate 256 'u' ≠ ['v'] ∧ List.replicate 256 'u' ≠ ['f'] ∧
    loadObj "/" (fileOf fullBufferFile) someUninit "t.obj" grey
      GLfloat.zero GLfloat.zero GLfloat.zero = Run.undefined :=
  ⟨by decide, ⟨_, _, _, _, rfl, rfl, by decide, by decide, by decide⟩, by decide, by decide,
    rfl⟩

/-- C13 as amended: in a well-formed file, a line put between the records
`rs1` and the records `rs2`, each of whose words is shorter than 256 bytes and,
taken as a C string (up to its first NUL byte), is neither `v` nor `f`,
changes nothing: `loadObj` returns the same `vertexList`, `faceList` and
`normalList` and prints the same lines as without it. Each word of the line,
met where a tag is expected, is read, matches neither tag, and the iteration
ends with nothing but the stream changed. -/
theorem loadObj_other_line_inserted (sep : String)
    (fopen1 fopen2 : String → Option (List Char))
    (u : Uninit) (objFile : String) (foo : SDL_Colour) (posX posY rotZ : GLfloat)
    (rs1 rs2 : List Record) (ws : List (List Char))
    (hwf1 : ∀ r ∈ rs1, r.WF) (hwf2 : ∀ r ∈ rs2, r.WF) (hws : ∀ w ∈ ws, IsJunkWord w)
    (hopen1 : fopen1 (fileName sep objFile) = some (renderFile (rs1 ++ rs2)))
    (hopen2 : fopen2 (fileName sep objFile) =
      some (renderOnto rs1 (junkLine ws (renderFile rs2)))) :
    (∃ g1 g2 out, loadObj sep fopen1 u objFile foo posX posY rotZ = Run.returns (g1, out) ∧
      loadObj sep fopen2 u objFile foo posX posY rotZ = Run.returns (g2, out) ∧
      g2.vertexList = g1.vertexList ∧ g2.faceList = g1.faceList ∧
      g2.normalList = g1.normalList) ∧
    (∀ (st : Scan) (w : List Char) (c : Char) (rest : List Char), w ∈ ws →
      isSpace c = true → st.currentFile = w ++ c :: rest →
      loopBody u st = Step.next { st with currentFile := skipWs rest }) := by
  constructor
  · have hwf : ∀ r ∈ rs1 ++ rs2, r.WF := by
      intro r hr
      rcases List.mem_append.1 hr with h | h
      · exact hwf1 r h
      · exact hwf2 r h
    have hwfo : ∀ r ∈ rs1 ++ Record.other ws :: rs2, r.WF := by
      intro r hr
      rcases List.mem_append.1 hr with h | h
      · exact hwf1 r h
      · rcases List.mem_cons.1 h with h | h
        · subst h; exact hws
        · exact hwf2 r h
    have hopen2a : fopen2 (fileName sep objFile) =
        some (renderFile (rs1 ++ Record.other ws :: rs2)) := by
      rw [hopen2]
      show _ = some (renderOnto (rs1 ++ Record.other ws :: rs2) [])
      rw [renderOnto_append]; rfl
    obtain ⟨g1, hg1, hv1, hf1, hn1⟩ :=
      loadObj_renderFile sep fopen1 u objFile foo posX posY rotZ _ hwf hopen1
    obtain ⟨g2, hg2, hv2, hf2, hn2⟩ :=
      loadObj_renderFile sep fopen2 u objFile foo posX posY rotZ _ hwfo hopen2a
    refine ⟨g1, g2, _, hg1, hg2, ?_, ?_, ?_⟩
    · rw [hv1, hv2]; simp [List.flatMap_append, List.flatMap_cons, Record.vertexData]
    · rw [hf1, hf2]; simp [List.flatMap_append, List.flatMap_cons, Record.faceData]
    · rw [hn1, hn2]; simp [List.flatMap_append, List.flatMap_cons, Record.normalData]
  · intro st w c rest hw hc hfile
    exact loopBody_junkWord u st w (hws w hw) c hc rest hfile

/-- C13 as amended, at the line `usemtl m` put between the vertices and the
face of the triangle. -/
theorem loadObj_other_line_inserted_witness :
    (∀ r ∈ triangle.take 3, r.WF) ∧ (∀ r ∈ triangle.drop 3, r.WF) ∧
    (∀ w ∈ [word "usemtl", word "m"], IsJunkWord w) ∧
    ∃ g1 g2 out,
      loadObj "/" (oneFile "v 0 0 0\nv 1 0 0\nv 0 1 0\nf 1//1 2//2 3//3\n") someUninit
        "t.obj" grey GLfloat.zero GLfloat.zero GLfloat.zero = Run.returns (g1, out) ∧
      loadObj "/" (oneFile "v 0 0 0\nv 1 0 0\nv 0 1 0\nusemtl m\nf 1//1 2//2 3//3\n")
        someUninit "t.obj" grey GLfloat.zero GLfloat.zero GLfloat.zero = Run.returns (g2, out) ∧
      g2.vertexList = g1.vertexList ∧ g2.faceList = g1.faceList ∧
      g2.normalList = g1.normalList :=
  ⟨by decide, by decide, by decide,
    (loadObj_other_line_inserted "/"
      (oneFile "v 0 0 0\nv 1 0 0\nv 0 1 0\nf 1//1 2//2 3//3\n")
      (oneFile "v 0 0 0\nv 1 0 0\nv 0 1 0\nusemtl m\nf 1//1 2//2 3//3\n")
      someUninit "t.obj" grey GLfloat.zero GLfloat.zero GLfloat.zero
      (triangle.take 3) (triangle.drop 3) [word "usemtl", word "m"]
      (by decide) (by decide) (by decide) rfl rfl).1⟩

/-! ## A `v` record cut short -/

theorem convF_ne_undefined (s : List Char) : convF s ≠ Conv.undefined := by
  unfold convF
  cases hs : skipWs s with
  | nil => simp
  | cons c cs =>
    simp only []
    split_ifs
    · simp
    · cases scanExponent (scanFraction (scanDigits (scanSign (c :: cs)).2).2).2 with
      | none => simp
      | some p => simp

theorem fscanfAux_floats (ds : List Directive) (hds : ∀ dir ∈ ds, dir.isFloatOnly = true) :
    ∀ (inp : List Char) (acc : List Arg), (fscanfAux ds inp acc).undefined = false := by
  induction ds with
  | nil => intro inp acc; rfl
  | cons dir ds ih =>
    intro inp acc
    have hds1 : ∀ d1 ∈ ds, d1.isFloatOnly = true := fun d1 h1 => hds d1 (by simp [h1])
    cases dir with
    | s size =>
      exact absurd (hds (Directive.s size) (by simp)) (by simp [Directive.isFloatOnly])
    | d => exact absurd (hds Directive.d (by simp)) (by simp [Directive.isFloatOnly])
    | ws => simpa [fscanfAux] using ih hds1 (skipWs inp) acc
    | lit c =>
      cases inp with
      | nil => simp [fscanfAux, inputFailure]
      | cons c1 cs =>
        by_cases hc : c1 = c
        · simpa [fscanfAux, hc] using ih hds1 cs acc
        · simp [fscanfAux, hc]
    | f =>
      cases hcv : convF inp with
      | inputFail => simp [fscanfAux, hcv, inputFailure]
      | matchFail rest => simp [fscanfAux, hcv]
      | undefined => exact absurd hcv (convF_ne_undefined inp)
      | ok v rest => simpa [fscanfAux, hcv] using ih hds1 rest (acc ++ [Arg.flt v])

theorem fscanf_fmtVertex_defined (inp : List Char) :
    (fscanf fmtVertex inp).undefined = false :=
  fscanfAux_floats fmtVertex (by decide) inp []

theorem convF_cons_space {c : Char} (hc : isSpace c = true) (s : List Char) :
    convF (c :: s) = convF s := by
  rw [← convF_skipWs (c :: s), skipWs_cons_of_space hc, convF_skipWs]

theorem convF_at_tag (rest : List Char)
    (hrest : rest = [] ∨ ∃ t, rest = 'v' :: t ∨ rest = 'f' :: t) :
    convF rest = Conv.inputFail ∧ rest = [] ∨ convF rest = Conv.matchFail rest := by
  rcases hrest with h | ⟨t, h | h⟩
  · left; subst h; exact ⟨rfl, rfl⟩
  · right; subst h
    have h1 : isSpace 'v' = false := by decide
    have h2 : isDigit 'v' = false := by decide
    simp [convF, skipWs, h1, scanSign, scanDigits, h2, scanFraction]
  · right; subst h
    have h1 : isSpace 'f' = false := by decide
    have h2 : isDigit 'f' = false := by decide
    simp [convF, skipWs, h1, scanSign, scanDigits, h2, scanFraction]

theorem fscanf_fmtVertex_partial (nums : List FloatNumeral) (hk : nums.length < 3)
    (hwf : ∀ n ∈ nums, n.WF) (rest : List Char)
    (hrest : rest = [] ∨ ∃ t, rest = 'v' :: t ∨ rest = 'f' :: t) :
    (fscanf fmtVertex (partialFields nums ('\n' :: rest))).args =
        nums.map (fun n => Arg.flt n.value) ∧
      (fscanf fmtVertex (partialFields nums ('\n' :: rest))).rest = rest := by
  have hsp : isSpace ' ' = true := by decide
  have hnl : isSpace '\n' = true := by decide
  have hskip : skipWs rest = rest := by
    rcases hrest with h | ⟨t, h | h⟩ <;> subst h
    · rfl
    · exact skipWs_cons_of_not_space (by decide) _
    · exact skipWs_cons_of_not_space (by decide) _
  have hf := convF_at_tag rest hrest
  match nums, hk, hwf with
  | [], _, _ =>
    rcases hf with ⟨h, h0⟩ | h
    · subst h0
      simp [fscanf, fmtVertex, fscanfAux, partialFields, convF_cons_space hnl, h, inputFailure]
    · simp [fscanf, fmtVertex, fscanfAux, partialFields, convF_cons_space hnl, h]
  | [a], _, hwf =>
    have ha : a.WF := hwf a (by simp)
    rcases hf with ⟨h, h0⟩ | h
    · subst h0
      simp [fscanf, fmtVertex, fscanfAux, partialFields, convF_cons_space hsp,
        convF_text a ha _ _ hnl, skipWs_cons_of_space hnl, convF_skipWs, h, inputFailure]
    · simp [fscanf, fmtVertex, fscanfAux, partialFields, convF_cons_space hsp,
        convF_text a ha _ _ hnl, skipWs_cons_of_space hnl, convF_skipWs, h, hskip]
  | [a, b], _, hwf =>
    have ha : a.WF := hwf a (by simp)
    have hb : b.WF := hwf b (by simp)
    rcases hf with ⟨h, h0⟩ | h
    · subst h0
      simp [fscanf, fmtVertex, fscanfAux, partialFields, convF_cons_space hsp,
        convF_text a ha _ _ hsp, convF_text b hb _ _ hnl, skipWs_cons_of_space hsp,
        skipWs_cons_of_space hnl, convF_skipWs, h, inputFailure]
    · simp [fscanf, fmtVertex, fscanfAux, partialFields, convF_cons_space hsp,
        convF_text a ha _ _ hsp, convF_text b hb _ _ hnl, skipWs_cons_of_space hsp,
        skipWs_cons_of_space hnl, convF_skipWs, h, hskip]
  | _ :: _ :: _ :: _, hk, _ => exact absurd hk (by simp)

theorem argFlt_map (nums : List FloatNumeral) (i : Nat) (old : GLfloat) :
    argFlt (nums.map (fun n => Arg.flt n.value)) i old =
      ((nums.map FloatNumeral.value).get? i).getD old := by
  simp only [argFlt, List.get?_eq_getElem?, List.getElem?_map]
  cases nums[i]? <;> rfl

theorem partialFields_head (nums : List FloatNumeral) (rest : List Char) :
    ∀ c ∈ (partialFields nums ('\n' :: rest)).head?, isSpace c = true := by
  cases nums with
  | nil => intro c h; simp [partialFields] at h; subst h; decide
  | cons n ns => intro c h; simp [partialFields] at h; subst h; decide

theorem loopBody_partialVertex (u : Uninit) (st : Scan) (nums : List FloatNumeral)
    (hk : nums.length < 3) (hwf : ∀ n ∈ nums, n.WF) (rest : List Char)
    (hrest : rest = [] ∨ ∃ t, rest = 'v' :: t ∨ rest = 'f' :: t)
    (hfile : st.currentFile = partialVertex nums rest) :
    loopBody u st = Step.next (st.afterVertex (nums.map FloatNumeral.value) rest) := by
  have ht := fscanf_fmtTag_word ['v'] (by simp) (by decide) (by decide) _
    (partialFields_head nums rest)
  simp only [List.singleton_append] at ht
  obtain ⟨h1, h2⟩ := fscanf_fmtVertex_partial nums hk hwf rest hrest
  simp [loopBody, hfile, partialVertex, ht, EOF, argStr, cstr, fscanf_fmtVertex_skipWs, h1, h2,
    argFlt_map, Scan.afterVertex, fillVertex, fscanf_fmtVertex_defined]

theorem apply_xyz (st : Scan) (r : Record) :
    ((Record.apply st r).x, (Record.apply st r).y, (Record.apply st r).z) =
      lastVertexFrom (st.x, st.y, st.z) [r] := by
  cases r <;> rfl

theorem applyRecords_xyz (rs : List Record) :
    ∀ st : Scan, ((applyRecords st rs).x, (applyRecords st rs).y, (applyRecords st rs).z) =
      lastVertexFrom (st.x, st.y, st.z) rs := by
  induction rs with
  | nil => intro st; rfl
  | cons r rs ih =>
    intro st
    rw [applyRecords_cons, ih (Record.apply st r)]
    cases r <;> rfl

theorem renderFile_at_tag (rs : List Record) (h : ∀ r ∈ rs.head?, r.isTagged = true) :
    renderFile rs = [] ∨ ∃ t, renderFile rs = 'v' :: t ∨ renderFile rs = 'f' :: t := by
  cases rs with
  | nil => left; rfl
  | cons r rs =>
    right
    have hr := h r (by simp)
    cases r with
    | v x y z => exact ⟨_, Or.inl rfl⟩
    | f a na b nb c nc => exact ⟨_, Or.inr rfl⟩
    | other ws => simp [Record.isTagged] at hr

theorem scanLoop_next (u : Uninit) (n : Nat) (st st1 : Scan)
    (h : loopBody u st = Step.next st1) : scanLoop u (n + 1) st = scanLoop u n st1 := by
  simp only [scanLoop, h]

theorem partialFields_length (nums : List FloatNumeral) (rest : List Char) :
    rest.length ≤ (partialFields nums rest).length := by
  induction nums with
  | nil => simp [partialFields]
  | cons n ns ih => simp only [partialFields, List.length_cons, List.length_append]; omega

/-- C19: a `v` record with fewer than three numerals is not rejected. After
any well-formed lines `rs`, and followed by the end of the file or by a line
that starts with a tag, it makes `loadObj` append three values to
`vertexList`: the components that were parsed first, and for each missing one
the value of that component in the most recent `v` record before (0 if there
was none). Nothing but the announcement of the file is printed, and the
records `rs2` after it are read. -/
theorem loadObj_short_vertex (sep : String) (fopen : String → Option (List Char))
    (u : Uninit) (objFile : String) (foo : SDL_Colour) (posX posY rotZ : GLfloat)
    (rs rs2 : List Record) (nums : List FloatNumeral)
    (hwf : ∀ r ∈ rs, r.WF) (hwf2 : ∀ r ∈ rs2, r.WF) (hnums : ∀ n ∈ nums, n.WF)
    (hk : nums.length < 3) (hnext : ∀ r ∈ rs2.head?, r.isTagged = true)
    (hopen : fopen (fileName sep objFile) =
      some (renderOnto rs (partialVertex nums (renderFile rs2)))) :
    ∃ g, loadObj sep fopen u objFile foo posX posY rotZ =
        Run.returns (g, [Msg.attempting (fileName sep objFile)]) ∧
      g.vertexList = rs.flatMap Record.vertexData ++
        fillVertex (nums.map FloatNumeral.value) (lastVertex rs) ++
        rs2.flatMap Record.vertexData ∧
      g.faceList = (rs ++ rs2).flatMap Record.faceData ∧
      g.normalList = (rs ++ rs2).flatMap Record.normalData := by
  rw [loadObj_renderOnto sep fopen u objFile foo posX posY rotZ rs _ hwf hopen]
  obtain ⟨S, hS⟩ : ∃ S, applyRecords (initScan (initObject u objFile foo posX posY rotZ)
      (fileName sep objFile) []) rs = S := ⟨_, rfl⟩
  have hf := applyRecords_fields rs
    (initScan (initObject u objFile foo posX posY rotZ) (fileName sep objFile) [])
  have hxyz : (S.x, S.y, S.z) = lastVertex rs := by
    rw [← hS]
    exact applyRecords_xyz rs _
  rw [hS] at hf ⊢
  obtain ⟨h1, h2, h3, _, _, _, _, _, h9⟩ := hf
  replace h1 : S.newObject.vertexList = rs.flatMap Record.vertexData := by
    simpa [initScan, initObject] using h1
  replace h2 : S.newObject.faceList = rs.flatMap Record.faceData := by
    simpa [initScan, initObject] using h2
  replace h3 : S.newObject.normalList = rs.flatMap Record.normalData := by
    simpa [initScan, initObject] using h3
  replace h9 : S.out = [Msg.attempting (fileName sep objFile)] := h9
  have hb := loopBody_partialVertex u
    { S with currentFile := partialVertex nums (renderFile rs2) } nums hk hnums
    (renderFile rs2) (renderFile_at_tag rs2 hnext) rfl
  have hlen : (renderFile rs2).length + 2 ≤ (partialVertex nums (renderFile rs2)).length := by
    have := partialFields_length nums ('\n' :: renderFile rs2)
    simp only [partialVertex, List.length_cons] at this ⊢
    omega
  have hsteps := renderOnto_length rs2 []
  obtain ⟨k, hk1⟩ : ∃ k, (partialVertex nums (renderFile rs2)).length =
      stepsOf rs2 + (k + 1) := by
    refine ⟨(partialVertex nums (renderFile rs2)).length - stepsOf rs2 - 1, ?_⟩
    simp only [renderFile] at hlen
    simp only [List.length_nil, renderFile] at hsteps ⊢
    omega
  rw [hk1, scanLoop_next u _ _ _ hb]
  have hrun := scanLoop_renderOnto u [] (k + 1) rs2
    (Scan.afterVertex { S with currentFile := partialVertex nums (renderFile rs2) }
      (nums.map FloatNumeral.value) (renderFile rs2)) hwf2
  have hrun' : scanLoop u (stepsOf rs2 + (k + 1))
      (Scan.afterVertex { S with currentFile := partialVertex nums (renderFile rs2) }
        (nums.map FloatNumeral.value) (renderFile rs2)) = _ := hrun
  rw [hrun', scanLoop_eof]
  obtain ⟨g1, g2, g3, _, _, _, _, _, g9⟩ := applyRecords_fields rs2
    (Scan.afterVertex { S with currentFile := partialVertex nums (renderFile rs2) }
      (nums.map FloatNumeral.value) (renderFile rs2))
  refine ⟨(applyRecords
    (Scan.afterVertex { S with currentFile := partialVertex nums (renderFile rs2) }
      (nums.map FloatNumeral.value) (renderFile rs2)) rs2).newObject, ?_, ?_, ?_, ?_⟩
  · simp only [Run.map]
    rw [g9]
    simp only [Scan.afterVertex, h9]
  · rw [g1]
    simp only [Scan.afterVertex, h1, hxyz]
  · rw [g2]
    simp only [Scan.afterVertex, h2, List.flatMap_append]
  · rw [g3]
    simp only [Scan.afterVertex, h3, List.flatMap_append]

/-- C19, at the file `v 1 2 3`, `v 4`, `f 1//1 2//2 3//3`: the second record
appends 4, 2, 3, nothing is reported, and the face after it is read. -/
theorem loadObj_short_vertex_witness :
    (∀ r ∈ [oneTwoThree], r.WF) ∧ (∀ r ∈ triangle.drop 3, r.WF) ∧
    (∀ n ∈ [FloatNumeral.digit '4'], n.WF) ∧
    ∃ g, loadObj "/" (oneFile "v 1 2 3\nv 4\nf 1//1 2//2 3//3\n") someUninit "s.obj" grey
        GLfloat.zero GLfloat.zero GLfloat.zero =
        Run.returns (g, [Msg.attempting (fileName "/" "s.obj")]) ∧
      g.vertexList = [GLfloat.ofNat 1, GLfloat.ofNat 2, GLfloat.ofNat 3] ++
        [GLfloat.ofNat 4, GLfloat.ofNat 2, GLfloat.ofNat 3] ++ [] ∧
      g.faceList = [2, 1, 0] ∧ g.normalList = [3, 2, 1] :=
  ⟨by decide, by decide, by decide,
    loadObj_short_vertex "/" (oneFile "v 1 2 3\nv 4\nf 1//1 2//2 3//3\n") someUninit "s.obj"
      grey GLfloat.zero GLfloat.zero GLfloat.zero [oneTwoThree] (triangle.drop 3)
      [FloatNumeral.digit '4'] (by decide) (by decide) (by decide) (by decide) (by decide)
      rfl⟩

/-! ## Rounding -/

theorem FloatModel.rnd_int (F : FloatModel) (n : ℤ) (h1 : -16777216 ≤ n)
    (h2 : n ≤ 16777216) : F.rnd (n : ℚ) = n := by
  have := F.exact n 0 h1 h2 (by norm_num)
  simpa using this

theorem FloatModel.rnd_zero (F : FloatModel) : F.rnd 0 = 0 := by
  simpa using F.rnd_int 0 (by norm_num) (by norm_num)

theorem FloatModel.rnd_quarter (F : FloatModel) : F.rnd (1 / 4) = 1 / 4 := by
  have := F.exact 1 2 (by norm_num) (by norm_num) (by norm_num)
  norm_num at this
  simpa using this

theorem FloatModel.rnd_360 (F : FloatModel) : F.rnd 360 = 360 := by
  simpa using F.rnd_int 360 (by norm_num) (by norm_num)

theorem FloatModel.rnd_nonneg (F : FloatModel) {a : ℚ} (h : 0 ≤ a) : 0 ≤ F.rnd a := by
  have := F.mono 0 a h
  rwa [F.rnd_zero] at this

theorem FloatModel.rnd_le_quarter (F : FloatModel) {a : ℚ} (h : a ≤ 1 / 4) :
    F.rnd a ≤ 1 / 4 := by
  have := F.mono a (1 / 4) h
  rwa [F.rnd_quarter] at this

/-! ## The speed of the vehicle -/

theorem updateSpeed_bounds (F : FloatModel) (s : Sim)
    (h : 0 ≤ s.carSpeed ∧ s.carSpeed ≤ 1 / 4) :
    0 ≤ updateSpeed F s ∧ updateSpeed F s ≤ 1 / 4 := by
  obtain ⟨h0, h1⟩ := h
  have c1 : 0 ≤ F.rnd (1 / 100) := F.rnd_nonneg (by norm_num)
  have c2 : 0 ≤ F.rnd (25 / 10000) := F.rnd_nonneg (by norm_num)
  unfold updateSpeed
  simp only [F.rnd_zero, F.rnd_quarter]
  split_ifs with hb hneg ha hbig hdrag hneg2
  · exact ⟨le_refl _, by norm_num⟩
  · exact ⟨not_lt.1 hneg, F.rnd_le_quarter (by linarith)⟩
  · exact ⟨by norm_num, le_refl _⟩
  · exact ⟨F.rnd_nonneg (by linarith), not_lt.1 hbig⟩
  · exact ⟨le_refl _, by norm_num⟩
  · exact ⟨not_lt.1 hneg2, F.rnd_le_quarter (by linarith)⟩
  · exact ⟨h0, h1⟩

theorem runSim_speed_bounds (F : FloatModel) (turns : List (Int × Bool × Bool)) :
    ∀ s : Sim, 0 ≤ s.carSpeed ∧ s.carSpeed ≤ 1 / 4 →
      0 ≤ (runSim F s turns).carSpeed ∧ (runSim F s turns).carSpeed ≤ 1 / 4 := by
  induction turns with
  | nil => intro s h; exact h
  | cons k ks ih =>
    intro s h
    exact ih (frame F s k) (updateSpeed_bounds F s h)

theorem truncQ_le {q : ℚ} (h : 0 ≤ q) : (truncQ q : ℚ) ≤ q := by
  simp only [truncQ, h, if_true]
  exact Int.floor_le q

/-- C14: `carSpeed` is bounded. From a state with `carSpeed = 0`, after any
sequence of turns of the main loop, under any values of `carSteer`,
`carAccel` and `carBrake` in each turn and under any rounding, the speed is at
least 0 and at most 0.25, also after one more `updateSim`; and the volume
passed for the fan sound is at most a quarter of `MIX_MAX_VOLUME`. -/
theorem carSpeed_bounded (F : FloatModel) (turns : List (Int × Bool × Bool)) (s : Sim)
    (mixMaxVolume : Nat) (h0 : s.carSpeed = 0) (hM : mixMaxVolume ≤ 16777216) :
    0 ≤ (runSim F s turns).carSpeed ∧ (runSim F s turns).carSpeed ≤ 1 / 4 ∧
    0 ≤ (updateSim F (runSim F s turns)).carSpeed ∧
    (updateSim F (runSim F s turns)).carSpeed ≤ 1 / 4 ∧
    (fanVolume F mixMaxVolume (runSim F s turns).carSpeed : ℚ) ≤ (mixMaxVolume : ℚ) / 4 := by
  have hb := runSim_speed_bounds F turns s (by rw [h0]; norm_num)
  have hu := updateSpeed_bounds F (runSim F s turns) hb
  refine ⟨hb.1, hb.2, hu.1, hu.2, ?_⟩
  have hMr : F.rnd (mixMaxVolume : ℚ) = mixMaxVolume := by
    have := F.rnd_int (mixMaxVolume : ℤ) (by omega) (by omega)
    simpa using this
  have hq : F.rnd ((mixMaxVolume : ℚ) / 4) = (mixMaxVolume : ℚ) / 4 := by
    have := F.exact (mixMaxVolume : ℤ) 2 (by omega) (by omega) (by norm_num)
    norm_num at this
    simpa using this
  have hM0 : (0 : ℚ) ≤ mixMaxVolume := Nat.cast_nonneg _
  have hprod : (mixMaxVolume : ℚ) * (runSim F s turns).carSpeed ≤ (mixMaxVolume : ℚ) / 4 := by
    have := mul_le_mul_of_nonneg_left hb.2 hM0
    linarith
  have h1 : F.rnd ((mixMaxVolume : ℚ) * (runSim F s turns).carSpeed) ≤
      (mixMaxVolume : ℚ) / 4 := by
    have := F.mono _ _ hprod
    rwa [hq] at this
  have h2 : 0 ≤ F.rnd ((mixMaxVolume : ℚ) * (runSim F s turns).carSpeed) :=
    F.rnd_nonneg (mul_nonneg hM0 hb.1)
  unfold fanVolume
  rw [hMr]
  exact le_trans (truncQ_le h2) h1

/-- C14, without rounding, at the start of the game: accelerate for forty
turns, coast for three, brake for two. -/
theorem carSpeed_bounded_witness :
    initSim.carSpeed = 0 ∧ 128 ≤ 16777216 ∧
    0 ≤ (runSim exactArith initSim (List.replicate 40 (0, true, false) ++
      List.replicate 3 (1, false, false) ++ List.replicate 2 (0, false, true))).carSpeed ∧
    (runSim exactArith initSim (List.replicate 40 (0, true, false) ++
      List.replicate 3 (1, false, false) ++ List.replicate 2 (0, false, true))).carSpeed ≤
      1 / 4 :=
  ⟨rfl, by norm_num,
    (carSpeed_bounded exactArith _ initSim 128 rfl (by norm_num)).1,
    (carSpeed_bounded exactArith _ initSim 128 rfl (by norm_num)).2.1⟩

/-! ## The orientation of the vehicle -/

theorem updateDirection_right (F : FloatModel) (s : Sim) (k : ℕ) (hs : s.carSteer = -1)
    (hk : k ≤ 72) (hd : s.carDirection = 5 * (k : ℚ)) :
    updateDirection F s = if k = 0 then 365 else 5 * ((k : ℚ) - 1) := by
  have h5 : F.rnd 5 = 5 := by simpa using F.rnd_int 5 (by norm_num) (by norm_num)
  have hm1 : F.rnd ((-1 : ℤ) : ℚ) = -1 := by
    simpa using F.rnd_int (-1) (by norm_num) (by norm_num)
  have hm5 : F.rnd (5 * -1) = -5 := by
    have := F.rnd_int (-5) (by norm_num) (by norm_num)
    norm_num at this ⊢
    exact this
  have hsum : F.rnd (5 * (k : ℚ) + -5) = 5 * (k : ℚ) - 5 := by
    have := F.rnd_int (5 * (k : ℤ) - 5) (by omega) (by omega)
    push_cast at this
    rw [← this]
    congr 1
    ring
  have h365 : F.rnd 365 = 365 := by
    simpa using F.rnd_int 365 (by norm_num) (by norm_num)
  unfold updateDirection
  simp only [hs, hd, h5, hm1, hm5, hsum, F.rnd_360, F.rnd_zero]
  have hkq : (k : ℚ) ≤ 72 := by exact_mod_cast hk
  by_cases hk0 : k = 0
  · subst hk0
    norm_num
    exact h365
  · have hk1 : (1 : ℚ) ≤ k := by
      have : 1 ≤ k := Nat.one_le_iff_ne_zero.2 hk0
      exact_mod_cast this
    have hn1 : ¬ (5 * (k : ℚ) - 5 > 360) := by linarith
    have hn2 : ¬ (5 * (k : ℚ) - 5 < 0) := by linarith
    simp only [hn1, hn2, hk0, if_false]
    ring

theorem runSim_append (F : FloatModel) (s : Sim) (a b : List (Int × Bool × Bool)) :
    runSim F s (a ++ b) = runSim F (runSim F s a) b := by
  simp only [runSim, List.foldl_append]

theorem runSim_right (F : FloatModel) (j : ℕ) :
    ∀ (s : Sim) (k : ℕ), s.carSteer = -1 → k ≤ 72 → j ≤ k → s.carDirection = 5 * (k : ℚ) →
      (runSim F s (List.replicate j (-1, false, false))).carSteer = -1 ∧
      (runSim F s (List.replicate j (-1, false, false))).carDirection = 5 * ((k : ℚ) - j) := by
  induction j with
  | zero => intro s k hs _ _ hd; simp [runSim, hs, hd]
  | succ j ih =>
    intro s k hs hk hj hd
    have hk0 : k ≠ 0 := by omega
    have hstep := updateDirection_right F s k hs hk hd
    simp only [hk0, if_false] at hstep
    have hd1 : (frame F s (-1, false, false)).carDirection = 5 * (((k - 1 : ℕ) : ℚ)) := by
      show updateDirection F s = _
      rw [hstep]
      have : ((k - 1 : ℕ) : ℚ) = (k : ℚ) - 1 := by
        rw [Nat.cast_sub (by omega)]; simp
      rw [this]
    have := ih (frame F s (-1, false, false)) (k - 1) rfl (by omega) (by omega) hd1
    have e : ((k - 1 : ℕ) : ℚ) - (j : ℚ) = (k : ℚ) - ((j + 1 : ℕ) : ℚ) := by
      rw [Nat.cast_sub (by omega)]; push_cast; ring
    rw [e] at this
    exact this

/-- C15 fails on the code: with the vehicle facing 0 degrees and steering
right (`carSteer = -1`), `updateSim` computes -5 and then `360 - (-5)`, so the
orientation becomes 365, outside 0 to 360, under any rounding. The state is
reached from the start of the game by holding the key for steering right:
after 36 turns the orientation is 0 and after the 37th it is 365. -/
theorem updateSim_direction_overshoots (F : FloatModel) :
    (updateSim F { initSim with carSteer := -1, carDirection := 0 }).carDirection = 365 ∧
    (runSim F { initSim with carSteer := -1 }
      (List.replicate 36 (-1, false, false))).carDirection = 0 ∧
    (runSim F { initSim with carSteer := -1 }
      (List.replicate 37 (-1, false, false))).carDirection = 365 := by
  have h36 := runSim_right F 36 { initSim with carSteer := -1 } 36 rfl (by norm_num)
    (by norm_num) (by simp [initSim]; norm_num)
  refine ⟨?_, ?_, ?_⟩
  · have := updateDirection_right F { initSim with carSteer := -1, carDirection := 0 } 0 rfl
      (by norm_num) (by simp)
    simpa [updateSim] using this
  · have := h36.2
    norm_num at this
    exact this
  · have e : List.replicate 37 ((-1 : Int), false, false) =
        List.replicate 36 (-1, false, false) ++ [(-1, false, false)] :=
      List.replicate_succ' 36 _
    have hd : (runSim F { initSim with carSteer := -1 }
        (List.replicate 36 (-1, false, false))).carDirection = 5 * ((0 : ℕ) : ℚ) := by
      have := h36.2
      norm_num at this
      rw [this]
      norm_num
    have hstep := updateDirection_right F _ 0 h36.1 (by norm_num) hd
    rw [e, runSim_append]
    show updateDirection F _ = 365
    rw [hstep]
    rfl

/-! ## The camera -/

/-- C16 fails on the code: from `rotX = 0` a horizontal movement of 16000
moves the angle by about 1600 degrees, and `handleMouseMotion` subtracts 360
once only, so `rotX` ends above 360 (at 1240 without rounding), under any
rounding. -/
theorem handleMouseMotion_rotX_overshoots (F : FloatModel) :
    360 < (handleMouseMotion F (initCamera F) 16000 0).rotX ∧
    (handleMouseMotion exactArith (initCamera exactArith) 16000 0).rotX = 1240 := by
  constructor
  · have h16 : F.rnd ((16000 : ℤ) : ℚ) = 16000 := by
      simpa using F.rnd_int 16000 (by norm_num) (by norm_num)
    have h1000 : F.rnd 1000 = 1000 := by
      simpa using F.rnd_int 1000 (by norm_num) (by norm_num)
    have h640 : F.rnd 640 = 640 := by
      simpa using F.rnd_int 640 (by norm_num) (by norm_num)
    have hs : (1 : ℚ) / 16 ≤ F.rnd (1 / 10) := by
      have h := F.exact 1 4 (by norm_num) (by norm_num) (by norm_num)
      have := F.mono (1 / 16) (1 / 10) (by norm_num)
      norm_num at h this ⊢
      rw [h] at this
      exact this
    have ht : (1000 : ℚ) ≤ F.rnd (16000 * F.rnd (1 / 10)) := by
      have := F.mono 1000 (16000 * F.rnd (1 / 10)) (by linarith)
      rwa [h1000] at this
    have hr : (1000 : ℚ) ≤ F.rnd (0 + F.rnd (16000 * F.rnd (1 / 10))) := by
      have := F.mono 1000 (0 + F.rnd (16000 * F.rnd (1 / 10))) (by linarith)
      rwa [h1000] at this
    have hbig : F.rnd (0 + F.rnd (16000 * F.rnd (1 / 10))) > 360 := by linarith
    have hres : (640 : ℚ) ≤ F.rnd (F.rnd (0 + F.rnd (16000 * F.rnd (1 / 10))) - 360) := by
      have := F.mono 640 (F.rnd (0 + F.rnd (16000 * F.rnd (1 / 10))) - 360) (by linarith)
      rwa [h640] at this
    simp only [handleMouseMotion, turnX, initCamera, h16, F.rnd_360]
    simp only [show ((16000 : ℤ) ≠ 0) from by norm_num, ne_eq, not_false_eq_true, if_true, hbig]
    linarith
  · simp only [handleMouseMotion, turnX, initCamera, exactArith, id]
    norm_num

/-- C17: the vertical angle stays inside the view limits. If `rotY` is
strictly between `-limitY` and `limitY` before `handleMouseMotion`, it is so
afterwards, for every movement, either setting of `invertY` and any rounding;
a movement whose target angle `tempY` is not strictly inside the limits leaves
`rotY` as it was, and one whose target is inside sets `rotY` to it. -/
theorem rotY_within_limits (F : FloatModel) (c : Camera) (xrel yrel : Int)
    (hL : -16777216 ≤ c.limitY ∧ c.limitY ≤ 16777216)
    (h : -(c.limitY : ℚ) < c.rotY ∧ c.rotY < c.limitY) :
    -((handleMouseMotion F c xrel yrel).limitY : ℚ) < (handleMouseMotion F c xrel yrel).rotY ∧
    (handleMouseMotion F c xrel yrel).rotY < (handleMouseMotion F c xrel yrel).limitY ∧
    (¬ (-(c.limitY : ℚ) < targetY F c yrel ∧ targetY F c yrel < c.limitY) →
      (handleMouseMotion F c xrel yrel).rotY = c.rotY) ∧
    (yrel ≠ 0 → -(c.limitY : ℚ) < targetY F c yrel ∧ targetY F c yrel < c.limitY →
      (handleMouseMotion F c xrel yrel).rotY = targetY F c yrel) := by
  have hp : F.rnd (c.limitY : ℚ) = c.limitY := F.rnd_int _ hL.1 hL.2
  have hn : F.rnd ((-c.limitY : ℤ) : ℚ) = -(c.limitY : ℚ) := by
    have := F.rnd_int (-c.limitY) (by omega) (by omega)
    simpa using this
  simp only [handleMouseMotion, turnY, hp, hn, gt_iff_lt]
  refine ⟨?_, ?_, ?_, ?_⟩
  · split_ifs with h1 h2
    · exact h2.1
    · exact h.1
    · exact h.1
  · split_ifs with h1 h2
    · exact h2.2
    · exact h.2
    · exact h.2
  · intro hout
    simp only [hout, if_false, ite_self]
  · intro hy hin
    simp only [hy, hin, ne_eq, not_false_eq_true, and_self, if_true]

/-- C17, without rounding, at the start of the game (limit 60, angle 0) and a
vertical movement of 100. -/
theorem rotY_within_limits_witness :
    (-16777216 ≤ (initCamera exactArith).limitY ∧ (initCamera exactArith).limitY ≤ 16777216) ∧
    (-((initCamera exactArith).limitY : ℚ) < (initCamera exactArith).rotY ∧
      (initCamera exactArith).rotY < (initCamera exactArith).limitY) ∧
    -((handleMouseMotion exactArith (initCamera exactArith) 0 100).limitY : ℚ) <
      (handleMouseMotion exactArith (initCamera exactArith) 0 100).rotY ∧
    (handleMouseMotion exactArith (initCamera exactArith) 0 100).rotY <
      (handleMouseMotion exactArith (initCamera exactArith) 0 100).limitY :=
  ⟨by decide, by simp [initCamera],
    (rotY_within_limits exactArith (initCamera exactArith) 0 100 (by decide)
      (by simp [initCamera])).1,
    (rotY_within_limits exactArith (initCamera exactArith) 0 100 (by decide)
      (by simp [initCamera])).2.1⟩

end HoverDrive
